import Mathlib

/-!
Verification of the projection-and-shading pipeline of the iconhedra SVG
icon generator (src/extensions/iconhedra/iconhedra.py) against its
natural-language specification.

The embedding follows the Python source function by function.  Machine
floating-point arithmetic is embedded as exact real arithmetic; Python
strings holding text are embedded as Lean strings or character lists.
-/

namespace Iconhedra

/-! ## Geometry loader (get_polyhedron_data, iconhedra.py lines 37-55)

The loader runs the external CAD tool and pattern-matches its text
output.  Text is embedded as a character list.  The regular-expression
search for a sentinel-delimited block is modelled by locating two
occurrences of the sentinel marker and capturing the text between them;
the character-class restriction of the source pattern is not modelled
(the claims about the loader only concern the case where the markers are
absent altogether). -/

/-- Suffix of the text after the first occurrence of the marker, or none
when the marker does not occur (helper for the regex-search model). -/
def dropAfterFirst (marker : List Char) : List Char → Option (List Char)
  | [] => none
  | c :: rest =>
    if marker.isPrefixOf (c :: rest) then some ((c :: rest).drop marker.length)
    else dropAfterFirst marker rest

/-- Text strictly before the first occurrence of the marker, or none when
the marker does not occur (helper for the regex-search model). -/
def takeBeforeFirst (marker : List Char) : List Char → Option (List Char)
  | [] => none
  | c :: rest =>
    if marker.isPrefixOf (c :: rest) then some []
    else (takeBeforeFirst marker rest).map (c :: ·)

/-- Model of re.search for a pattern of the form marker ... marker: the
match succeeds when the marker occurs twice, capturing the text between
the first two occurrences (the source then strips the markers off the
matched group, so the captured text is returned directly). -/
def findBlock (marker text : List Char) : Option (List Char) :=
  (dropAfterFirst marker text).bind (takeBeforeFirst marker)

/-- Splits off the text before the first occurrence of a single stop
character, together with the remainder after it. -/
def takeUntilChar (stop : Char) : List Char → Option (List Char × List Char)
  | [] => none
  | c :: rest =>
    if c = stop then some ([], rest)
    else (takeUntilChar stop rest).map (fun p => (c :: p.1, p.2))

/-- One-pass scanner behind the bracketed-group model: the first argument
holds the (reversed) content of the currently open bracket group, if one
is open. -/
def bracketGroupsAux : Option (List Char) → List Char → List (List Char)
  | _, [] => []
  | none, c :: rest =>
    if c = '[' then bracketGroupsAux (some []) rest else bracketGroupsAux none rest
  | some acc, c :: rest =>
    if c = ']' then acc.reverse :: bracketGroupsAux none rest
    else bracketGroupsAux (some (c :: acc)) rest

/-- Model of re.findall for bracketed groups: every maximal run of text
enclosed in square brackets, in order.  The source keeps the brackets in
the matched group and strips them before splitting on commas; here the
content between the brackets is returned directly. -/
def bracketGroups (text : List Char) : List (List Char) :=
  bracketGroupsAux none text

/-- Outcome of running a piece of Python code: a value, or an uncaught
exception identified by its class name. -/
inductive PyResult (α : Type) where
  | ok (val : α)
  | exn (exnName : String)
deriving DecidableEq

/-- Embedding of get_polyhedron_data applied to the captured text output
of the CAD tool.  The source calls .group(0) directly on the result of
re.search; when the search finds no vertex or face block, that result is
None and the attribute access raises an uncaught AttributeError, which is
the modelled exn outcome.  On success the source parses each bracketed
group into numbers; the claims do not depend on the numeric values, so
the groups are returned unparsed. -/
def get_polyhedron_data (toolOutput : List Char) :
    PyResult (List (List Char) × List (List Char)) :=
  match findBlock "<VERTICES>".toList toolOutput with
  | none => .exn "AttributeError"
  | some vblock =>
    match findBlock "<FACES>".toList toolOutput with
    | none => .exn "AttributeError"
    | some fblock => .ok (bracketGroups vblock, bracketGroups fblock)

/-- How the front of generate_icon (iconhedra.py lines 112-115) ends when
loading data: an uncaught exception propagating out of
get_polyhedron_data, the handled no-data report (the source prints that
it could not retrieve data and returns cleanly without writing output),
or successfully loaded geometry. -/
inductive LoadPhase where
  | crashed (exnName : String)
  | noData
  | loaded (vertices faces : List (List Char))
deriving DecidableEq

/-- Embedding of the load phase of generate_icon: call
get_polyhedron_data, then report no data when the parsed vertex array is
empty (points_3d.size == 0).  An exception inside get_polyhedron_data
propagates before that check is reached. -/
def loadPhase (toolOutput : List Char) : LoadPhase :=
  match get_polyhedron_data toolOutput with
  | .exn e => .crashed e
  | .ok (vs, fs) => if vs.isEmpty then .noData else .loaded vs fs

/-! ## Geometry core

Machine floats are embedded as exact real numbers.  Vectors are rows of
three reals; numpy matrix application points_3d @ rot_matrix multiplies
each point row by the matrix on the right, which is the vecMul operation
below. -/

open scoped Classical

noncomputable section

/-- A 3D point or vector (one row of the numpy array). -/
structure Vec3 where
  x : ℝ
  y : ℝ
  z : ℝ

/-- Componentwise difference of vectors. -/
def Vec3.sub (a b : Vec3) : Vec3 :=
  ⟨a.x - b.x, a.y - b.y, a.z - b.z⟩

/-- Dot product (np.dot). -/
def Vec3.dot (a b : Vec3) : ℝ :=
  a.x * b.x + a.y * b.y + a.z * b.z

/-- Cross product (np.cross). -/
def Vec3.cross (a b : Vec3) : Vec3 :=
  ⟨a.y * b.z - a.z * b.y, a.z * b.x - a.x * b.z, a.x * b.y - a.y * b.x⟩

/-- Euclidean length (np.linalg.norm). -/
def Vec3.len (a : Vec3) : ℝ :=
  Real.sqrt (a.dot a)

/-- Scalar multiple of a vector. -/
def Vec3.scale (t : ℝ) (a : Vec3) : Vec3 :=
  ⟨t * a.x, t * a.y, t * a.z⟩

/-- A 3 by 3 real matrix in row-major field order. -/
structure Mat3 where
  m00 : ℝ
  m01 : ℝ
  m02 : ℝ
  m10 : ℝ
  m11 : ℝ
  m12 : ℝ
  m20 : ℝ
  m21 : ℝ
  m22 : ℝ

/-- Matrix product (numpy @ between 3 by 3 matrices). -/
def Mat3.mul (A B : Mat3) : Mat3 :=
  ⟨A.m00 * B.m00 + A.m01 * B.m10 + A.m02 * B.m20,
   A.m00 * B.m01 + A.m01 * B.m11 + A.m02 * B.m21,
   A.m00 * B.m02 + A.m01 * B.m12 + A.m02 * B.m22,
   A.m10 * B.m00 + A.m11 * B.m10 + A.m12 * B.m20,
   A.m10 * B.m01 + A.m11 * B.m11 + A.m12 * B.m21,
   A.m10 * B.m02 + A.m11 * B.m12 + A.m12 * B.m22,
   A.m20 * B.m00 + A.m21 * B.m10 + A.m22 * B.m20,
   A.m20 * B.m01 + A.m21 * B.m11 + A.m22 * B.m21,
   A.m20 * B.m02 + A.m21 * B.m12 + A.m22 * B.m22⟩

/-- Matrix transpose. -/
def Mat3.transpose (A : Mat3) : Mat3 :=
  ⟨A.m00, A.m10, A.m20, A.m01, A.m11, A.m21, A.m02, A.m12, A.m22⟩

/-- Determinant of a 3 by 3 matrix. -/
def Mat3.det (A : Mat3) : ℝ :=
  A.m00 * (A.m11 * A.m22 - A.m12 * A.m21)
    - A.m01 * (A.m10 * A.m22 - A.m12 * A.m20)
    + A.m02 * (A.m10 * A.m21 - A.m11 * A.m20)

/-- The identity matrix. -/
def Mat3.one : Mat3 :=
  ⟨1, 0, 0, 0, 1, 0, 0, 0, 1⟩

/-- Row vector times matrix: the action of points_3d @ rot_matrix on one
point row. -/
def Vec3.vecMul (p : Vec3) (M : Mat3) : Vec3 :=
  ⟨p.x * M.m00 + p.y * M.m10 + p.z * M.m20,
   p.x * M.m01 + p.y * M.m11 + p.z * M.m21,
   p.x * M.m02 + p.y * M.m12 + p.z * M.m22⟩

/-- Degrees to radians (math.radians). -/
def radians (d : ℝ) : ℝ :=
  d * Real.pi / 180

/-- Elementary rotation about the X axis (matrix Rx of
get_rotation_matrix, iconhedra.py line 69). -/
def rotX (r : ℝ) : Mat3 :=
  ⟨1, 0, 0, 0, Real.cos r, -Real.sin r, 0, Real.sin r, Real.cos r⟩

/-- Elementary rotation about the Y axis (matrix Ry, line 70). -/
def rotY (r : ℝ) : Mat3 :=
  ⟨Real.cos r, 0, Real.sin r, 0, 1, 0, -Real.sin r, 0, Real.cos r⟩

/-- Elementary rotation about the Z axis (matrix Rz, line 71). -/
def rotZ (r : ℝ) : Mat3 :=
  ⟨Real.cos r, -Real.sin r, 0, Real.sin r, Real.cos r, 0, 0, 0, 1⟩

/-- Embedding of get_rotation_matrix (iconhedra.py lines 66-72): convert
the three angles to radians and compose Rz @ Ry @ Rx. -/
def get_rotation_matrix (rx ry rz : ℝ) : Mat3 :=
  ((rotZ (radians rz)).mul (rotY (radians ry))).mul (rotX (radians rx))

/-- The quaternion-to-matrix conversion formula of iconhedra.py lines
87-89, laid out entry by entry exactly as the source array literal. -/
def quatMat (a b c d : ℝ) : Mat3 :=
  ⟨a * a + b * b - c * c - d * d, 2 * (b * c - a * d), 2 * (b * d + a * c),
   2 * (b * c + a * d), a * a + c * c - b * b - d * d, 2 * (c * d - a * b),
   2 * (b * d - a * c), 2 * (c * d + a * b), a * a + d * d - b * b - c * c⟩

/-- Embedding of get_rotation_matrix_around_axis (iconhedra.py lines
74-89): normalize the axis, build the half-angle quaternion with
components a and (b, c, d) = -axis * sin(angle/2), and convert it to a
matrix by the quaternion-to-matrix formula. -/
def get_rotation_matrix_around_axis (axis : Vec3) (angleDeg : ℝ) : Mat3 :=
  let angleRad := radians angleDeg
  let n := axis.len
  let a := Real.cos (angleRad / 2)
  let s := Real.sin (angleRad / 2)
  quatMat a (-(axis.x / n) * s) (-(axis.y / n) * s) (-(axis.z / n) * s)

/-! ## Scene constants and the face shader -/

/-- Fixed view direction (iconhedra.py line 118). -/
def viewVector : Vec3 := ⟨0, 0, 1⟩

/-- Fixed light direction before normalization (line 119). -/
def lightRaw : Vec3 := ⟨1, 2, 3⟩

/-- Fixed normalized light direction (line 120). -/
def lightSource : Vec3 := Vec3.scale (1 / lightRaw.len) lightRaw

/-- The ambient lighting coefficient (line 158). -/
def ambient : ℝ := 0.3

/-- Shade factor of a unit face normal (lines 158-160): ambient plus the
diffuse term clamped at zero. -/
def shadeOf (unitNormal : Vec3) : ℝ :=
  ambient + (1 - ambient) * max 0 (unitNormal.dot lightSource)

/-- Python int() on a machine float: truncation toward zero. -/
def pyInt (x : ℝ) : ℤ :=
  if 0 ≤ x then ⌊x⌋ else -⌊-x⌋

/-- The rgb(r,g,b) fill string built at line 162. -/
def rgbString (r g b : ℤ) : String :=
  "rgb(" ++ toString r ++ "," ++ toString g ++ "," ++ toString b ++ ")"

/-- Face color (lines 161-162): each base channel scaled by the shade
factor and truncated to an integer. -/
def colorOf (base : ℕ × ℕ × ℕ) (unitNormal : Vec3) : String :=
  rgbString (pyInt ((base.1 : ℝ) * shadeOf unitNormal))
    (pyInt ((base.2.1 : ℝ) * shadeOf unitNormal))
    (pyInt ((base.2.2 : ℝ) * shadeOf unitNormal))

/-! ## Per-frame face processing (iconhedra.py lines 144-174) -/

/-- The per-frame, per-face record built at lines 168-174: the projected
2D points, the mean rotated depth, the fill color string, and the
visibility flag from back-face culling. -/
structure ShadedFace where
  face_index : ℕ
  pts2d : List (ℝ × ℝ)
  depth : ℝ
  color : String
  visible : Bool

/-- The rotated vertices of one face (rotated_points[face_indices]).  The
source indexes the numpy array directly; faces are assumed to carry
in-range indices per the data model, so out-of-range indices (which
would raise IndexError in the source) take a default here. -/
def faceVertices (rotated : List Vec3) (face : List ℕ) : List Vec3 :=
  face.map (fun j => rotated.getD j ⟨0, 0, 0⟩)

/-- The unnormalized face normal np.cross(v1, v2) of the two edge vectors
out of the face's first vertex (lines 148-149).  Faces are assumed to
have at least three vertices per the data model; shorter faces (an
IndexError in the source) take default vertices here. -/
def faceCross (rotated : List Vec3) (face : List ℕ) : Vec3 :=
  let fp := faceVertices rotated face
  let p0 := fp.getD 0 ⟨0, 0, 0⟩
  let p1 := fp.getD 1 ⟨0, 0, 0⟩
  let p2 := fp.getD 2 ⟨0, 0, 0⟩
  (p1.sub p0).cross (p2.sub p0)

/-- Embedding of the per-face body of the frame loop (lines 146-174):
none when the face is degenerate (zero cross-product magnitude, line
151), otherwise the shaded-face record. -/
def processFace (base : ℕ × ℕ × ℕ) (rotated : List Vec3) (i : ℕ)
    (face : List ℕ) : Option ShadedFace :=
  let fp := faceVertices rotated face
  let normal := faceCross rotated face
  let nrm := normal.len
  if nrm = 0 then none
  else
    let unitNormal := Vec3.scale (1 / nrm) normal
    let isVisible : Bool := decide (0 ≤ unitNormal.dot viewVector)
    let depth := (fp.map Vec3.z).sum / (fp.length : ℝ)
    some ⟨i, fp.map (fun p => (p.x, p.y)), depth, colorOf base unitNormal, isVisible⟩

/-- The enumerated loop over faces (for i, face in enumerate(faces)),
starting at index k. -/
def processFacesAux (base : ℕ × ℕ × ℕ) (rotated : List Vec3) :
    ℕ → List (List ℕ) → List ShadedFace
  | _, [] => []
  | k, face :: rest =>
    match processFace base rotated k face with
    | none => processFacesAux base rotated (k + 1) rest
    | some e => e :: processFacesAux base rotated (k + 1) rest

/-- All shaded faces of one frame, in face order, degenerate faces
skipped (the frame_faces list before sorting). -/
def processFaces (base : ℕ × ℕ × ℕ) (rotated : List Vec3)
    (faces : List (List ℕ)) : List ShadedFace :=
  processFacesAux base rotated 0 faces

/-! ## The frame loop (iconhedra.py lines 123-193) -/

/-- The 4-decimal quantization performed by the .4f format specifier
(iconhedra.py lines 185 and 221): the value is rounded to the nearest
multiple of 1/10000.  Python rounds exact ties to even while round here
rounds them up; no value used by the claims sits on a tie. -/
def round4 (x : ℝ) : ℝ :=
  ((round ((10000 : ℝ) * x) : ℤ) : ℝ) / 10000

/-- Both coordinates of a 2D point quantized to 4 decimals, as the
coordinate pair survives one format-and-reparse round trip. -/
def quantPoint (q : ℝ × ℝ) : ℝ × ℝ :=
  (round4 q.1, round4 q.2)

/-- The per-face animation record (line 132).  The source stores each
keyframe as a formatted string; the embedding keeps the parsed-back
values, so each stored keyframe carries the 4-decimal quantization that
the f-string at line 185 applies. -/
structure FaceAnim where
  points_values : List (List (ℝ × ℝ))
  color_values : List String
  visibility_values : List String

/-- The empty animation record each face starts with. -/
def emptyAnim : FaceAnim := ⟨[], [], []⟩

/-- Appending one frame's data to a face's animation record (lines
183-188): the projected points formatted to 4 decimals (line 185), the
color, and the visibility token. -/
def appendAnim (r : FaceAnim) (e : ShadedFace) : FaceAnim :=
  ⟨r.points_values ++ [e.pts2d.map quantPoint],
   r.color_values ++ [e.color],
   r.visibility_values ++ [if e.visible then "visible" else "hidden"]⟩

/-- Storing one frame: fold over the frame's (sorted) shaded faces,
appending each one's data to the record at its face index. -/
def storeFrame (anims : List FaceAnim) (ffs : List ShadedFace) : List FaceAnim :=
  ffs.foldl (fun acc e => List.modify (fun r => appendAnim r e) e.face_index acc) anims

/-- The arguments of generate_icon that the pipeline reads, plus the
random orientation sample drawn at line 129 (used only when no explicit
orientation is given).  The animation duration is a rational standing
for the Python float (or None). -/
structure GenConfig where
  points3d : List Vec3
  faces : List (List ℕ)
  baseColor : ℕ × ℕ × ℕ
  animation_duration : Option ℚ
  orientation : Option (ℝ × ℝ × ℝ)
  randomOrientation : ℝ × ℝ × ℝ
  rotation_axis : Option Vec3

/-- The number of animation keyframes (line 124). -/
def numFrames : ℕ := 72

/-- Python truthiness of the animation_duration argument: None and 0.0
are falsy, every other float is truthy. -/
def GenConfig.animTruthy (cfg : GenConfig) : Bool :=
  match cfg.animation_duration with
  | none => false
  | some d => decide (d ≠ 0)

/-- The initial rotation (lines 125-129): the explicit orientation when
one is given (a three-element list is truthy even when all angles are
zero), otherwise the random sample. -/
def initialRotation (cfg : GenConfig) : Mat3 :=
  match cfg.orientation with
  | some (rx, ry, rz) => get_rotation_matrix rx ry rz
  | none =>
    get_rotation_matrix cfg.randomOrientation.1 cfg.randomOrientation.2.1
      cfg.randomOrientation.2.2

/-- The rotation matrix of one frame (lines 138-141): the axis rotation
by angle (360/72)*frame about the chosen axis (default the Y axis),
composed with the initial rotation only when animation_duration is
truthy. -/
def rotFor (cfg : GenConfig) (frame : ℕ) : Mat3 :=
  let angle := (360 / (numFrames : ℝ)) * (frame : ℝ)
  let animRot := get_rotation_matrix_around_axis
    (cfg.rotation_axis.getD ⟨0, 1, 0⟩) angle
  if cfg.animTruthy then animRot.mul (initialRotation cfg) else initialRotation cfg

/-- All vertices rotated by one frame's matrix (line 142). -/
def rotatedAt (cfg : GenConfig) (frame : ℕ) : List Vec3 :=
  cfg.points3d.map (fun p => p.vecMul (rotFor cfg frame))

/-- One frame's shaded faces before depth sorting. -/
def frameFaces (cfg : GenConfig) (frame : ℕ) : List ShadedFace :=
  processFaces cfg.baseColor (rotatedAt cfg frame) cfg.faces

/-- One frame's shaded faces sorted back to front by depth (line 180;
Python list.sort is stable, as is mergeSort). -/
def frameFacesSorted (cfg : GenConfig) (frame : ℕ) : List ShadedFace :=
  (frameFaces cfg frame).mergeSort (fun a b => decide (a.depth ≤ b.depth))

/-- The face animation records after the first n frames of the loop have
stored their values. -/
def animsAfter (cfg : GenConfig) : ℕ → List FaceAnim
  | 0 => List.replicate cfg.faces.length emptyAnim
  | n + 1 => storeFrame (animsAfter cfg n) (frameFacesSorted cfg n)

/-- The face animation records when the loop finishes: the static path
breaks out after storing frame 0 (line 191-193), the animated path runs
all 72 frames. -/
def faceAnimationsFinal (cfg : GenConfig) : List FaceAnim :=
  if cfg.animation_duration.isNone then animsAfter cfg 1 else animsAfter cfg numFrames

/-- The faces drawn by the static path (line 192): the visible faces of
frame 0, kept in back-to-front depth order. -/
def facesToDraw (cfg : GenConfig) : List ShadedFace :=
  (frameFacesSorted cfg 0).filter (fun e => e.visible)

/-! ## The SVG emitter (iconhedra.py lines 195-261) -/

/-- The fixed square canvas size in pixels (line 197). -/
def canvasSize : ℝ := 512

/-- The rotated points the bounding box is computed from (line 203):
every frame's rotated points when animation_duration is truthy (the
frames appended at line 177), otherwise the initially rotated points
only. -/
def allRotatedPoints (cfg : GenConfig) : List Vec3 :=
  if cfg.animTruthy then
    ((List.range numFrames).map (rotatedAt cfg)).flatten
  else cfg.points3d.map (fun p => p.vecMul (initialRotation cfg))

/-- The x and y coordinates of a point list, interleaved (the entries of
the numpy slice all_rotated_points[:, :2], over which a single scalar
min and max are taken). -/
def xyList (ps : List Vec3) : List ℝ :=
  ps.foldr (fun p acc => p.x :: p.y :: acc) []

/-- Scalar minimum of a list (np.min over all entries).  The source
errors on an empty array; the defaulted value 0 is never reached for
nonempty geometry. -/
def listMin : List ℝ → ℝ
  | [] => 0
  | a :: rest => rest.foldl min a

/-- Scalar maximum of a list (np.max over all entries). -/
def listMax : List ℝ → ℝ
  | [] => 0
  | a :: rest => rest.foldl max a

/-- The joint minimum over every x and y coordinate used (line 206). -/
def minCoord (cfg : GenConfig) : ℝ :=
  listMin (xyList (allRotatedPoints cfg))

/-- The joint maximum over every x and y coordinate used (line 207). -/
def maxCoord (cfg : GenConfig) : ℝ :=
  listMax (xyList (allRotatedPoints cfg))

/-- The single uniform scale fitting the joint coordinate range into 90
percent of the canvas (line 208). -/
def scaleFactor (cfg : GenConfig) : ℝ :=
  0.9 * canvasSize / (maxCoord cfg - minCoord cfg)

/-- The common x and y offset centering the drawing (lines 211-212; the
source computes the same expression for both axes). -/
def offsetXY (cfg : GenConfig) : ℝ :=
  -(minCoord cfg) * scaleFactor cfg
    + (canvasSize - (maxCoord cfg - minCoord cfg) * scaleFactor cfg) / 2

/-- Applying the one scale and offset to a 2D point (lines 217 and 226). -/
def scalePoint (cfg : GenConfig) (p : ℝ × ℝ) : ℝ × ℝ :=
  (p.1 * scaleFactor cfg + offsetXY cfg, p.2 * scaleFactor cfg + offsetXY cfg)

/-- Python str() of the animation-duration float, as interpolated into
the dur attribute f-string at lines 250-256.  The duration reaches
generate_icon as a float (argparse type float; the docstring gives the
parameter type as float or None), and Python prints integral floats with
a trailing .0 (str(10.0) is 10.0).  The claims only exercise integral
durations; non-integral floats are out of scope and print their rational
form here. -/
def pyFloatRepr (q : ℚ) : String :=
  if q.den = 1 then toString q.num ++ ".0" else toString q

/-- The dur attribute string f-string of the three Animate elements. -/
def durString (d : ℚ) : String :=
  pyFloatRepr d ++ "s"

/-- An attribute animation over point-list keyframes (the points
Animate element, lines 249-251).  The source joins the keyframe strings
with semicolons; the embedding keeps the list of keyframes. -/
structure PointsAnimate where
  values : List (List (ℝ × ℝ))
  dur : String
  repeatCount : String

/-- An attribute animation over string keyframes (the fill and
visibility Animate elements, lines 252-257). -/
structure StringAnimate where
  values : List String
  dur : String
  repeatCount : String
  calcMode : Option String

/-- One polygon element of the animated output with its three attached
attribute animations (lines 243-259). -/
structure AnimPolygon where
  initialPoints : List (ℝ × ℝ)
  initialFill : String
  initialVisibility : String
  pointsAnim : PointsAnimate
  fillAnim : StringAnimate
  visibilityAnim : StringAnimate

/-- Building one animated polygon from a face's animation record (lines
238-257): reparse and scale every stored (4-decimal) keyframe with the
one scale and offset (scale_points_from_str, lines 214-217), format the
scaled keyframes to 4 decimals again for the points value list
(format_points_to_str, lines 219-221 and 239), take the first scaled
keyframe as the initial attribute values (line 243, written without
further formatting), and attach the three animations sharing the one
duration and indefinite repeat, the visibility animation in discrete
calculation mode. -/
def buildPoly (cfg : GenConfig) (d : ℚ) (r : FaceAnim) : AnimPolygon :=
  let scaledValues := r.points_values.map (fun ps => ps.map (scalePoint cfg))
  { initialPoints := scaledValues.getD 0 []
    initialFill := r.color_values.getD 0 ""
    initialVisibility := r.visibility_values.getD 0 ""
    pointsAnim := ⟨scaledValues.map (fun ps => ps.map quantPoint), durString d, "indefinite"⟩
    fillAnim := ⟨r.color_values, durString d, "indefinite", none⟩
    visibilityAnim := ⟨r.visibility_values, durString d, "indefinite", some "discrete"⟩ }

/-- The polygons written to the output document: the static branch or the
animated branch of lines 223-259. -/
inductive SVGOut where
  | static (polys : List (List (ℝ × ℝ) × String))
  | animated (polys : List AnimPolygon)

/-- Embedding of the emission phase of generate_icon: the static branch
draws the visible faces of frame 0 back to front with scaled
coordinates; the animated branch walks the face animation records in
original face order, skips records with no stored keyframes, and emits
one animated polygon for each remaining record. -/
def generateSVG (cfg : GenConfig) : SVGOut :=
  match cfg.animation_duration with
  | none =>
    .static ((facesToDraw cfg).map
      (fun e => (e.pts2d.map (scalePoint cfg), e.color)))
  | some d =>
    .animated (((faceAnimationsFinal cfg).filter
      (fun r => !r.points_values.isEmpty)).map (buildPoly cfg d))

/-- The animated polygons of an output (empty for a static output). -/
def SVGOut.animPolys : SVGOut → List AnimPolygon
  | .static _ => []
  | .animated polys => polys

/-- Every 2D coordinate pair the emitter writes into the document:
static polygon points, or initial points and keyframe points of animated
polygons. -/
def writtenXY : SVGOut → List (ℝ × ℝ)
  | .static polys => (polys.map (fun pl => pl.1)).flatten
  | .animated polys =>
    (polys.map (fun p => p.initialPoints ++ p.pointsAnim.values.flatten)).flatten

/-! ## Derived observations of the pipeline -/

/-- The shaded face of a given face index in a given frame, when the face
was processed (non-degenerate) in that frame. -/
def frameEntry (cfg : GenConfig) (i frame : ℕ) : Option ShadedFace :=
  (frameFaces cfg frame).find? (fun e => e.face_index == i)

/-- The animation record of face i accumulated over the first n frames,
as characterized by the per-frame entries: one appended value triple per
frame in which the face was processed. -/
def recordAt (cfg : GenConfig) (n i : ℕ) : FaceAnim :=
  let entries := (List.range n).filterMap (frameEntry cfg i)
  ⟨entries.map (fun e => e.pts2d.map quantPoint),
   entries.map ShadedFace.color,
   entries.map (fun e => if e.visible then "visible" else "hidden")⟩

/-! ## Concrete configurations used by witnesses and counterexamples -/

/-- A single triangle lying in the z = 0 plane, wound so that the cross
product of its first-three-vertex edge vectors points toward -Z. -/
def triPoints : List Vec3 := [⟨0, 0, 0⟩, ⟨0, 1, 0⟩, ⟨1, 0, 0⟩]

/-- The one face of the triangle geometry. -/
def triFaces : List (List ℕ) := [[0, 1, 2]]

/-- Animated run over the triangle: duration 10, explicit zero
orientation, animation axis (0, 0, 1).  Rotating about the Z axis keeps
the triangle in the z = 0 plane, so its face normal stays (0, 0, -1) and
the face is back-facing in every one of the 72 frames while never being
degenerate. -/
def cfgTri : GenConfig :=
  { points3d := triPoints
    faces := triFaces
    baseColor := (0, 0, 0)
    animation_duration := some 10
    orientation := some (0, 0, 0)
    randomOrientation := (0, 0, 0)
    rotation_axis := some ⟨0, 0, 1⟩ }

/-- The same triangle run with animation_duration 0.0 (the edge case of
claim C10). -/
def cfgTri0 : GenConfig :=
  { cfgTri with animation_duration := some 0 }

/-- Modelled from the spec: the cube geometry delivered by the OpenSCAD
polyhedron library of this repository, which is not under src/ (the
loader obtains it from the external tool at run time).  The spec gives a
cube with 6 faces; the library's polyhedron faces are wound clockwise
when viewed from outside, the OpenSCAD polyhedron convention, so the
cross product of the first-three-vertex edge vectors points into the
solid.  Vertices of the axis-aligned side-2 cube. -/
def cubePoints : List Vec3 :=
  [⟨1, 1, 1⟩, ⟨1, -1, 1⟩, ⟨-1, -1, 1⟩, ⟨-1, 1, 1⟩,
   ⟨1, 1, -1⟩, ⟨1, -1, -1⟩, ⟨-1, -1, -1⟩, ⟨-1, 1, -1⟩]

/-- Modelled from the spec: the six cube faces (top, bottom, then the
four sides), each wound clockwise viewed from outside. -/
def cubeFaces : List (List ℕ) :=
  [[0, 1, 2, 3], [4, 7, 6, 5], [0, 4, 5, 1], [3, 2, 6, 7], [0, 3, 7, 4], [1, 5, 6, 2]]

/-- Static run over the cube at orientation (0, 0, 0) with the default
base color 3498db = (52, 152, 219). -/
def cubeCfg : GenConfig :=
  { points3d := cubePoints
    faces := cubeFaces
    baseColor := (52, 152, 219)
    animation_duration := none
    orientation := some (0, 0, 0)
    randomOrientation := (0, 0, 0)
    rotation_axis := none }

/-- A triangle of tiny coordinate extent (0.00006) run with the falsy
duration 0.0, so the whole animated pipeline is exactly computable: the
rotation stays the identity in every frame while the emitter still takes
the animated branch.  The 4-decimal keyframe quantization rounds the
coordinate 0.00006 up to 0.0001, past the joint maximum the scale and
offset were computed from, so a written coordinate lands far outside the
canvas. -/
def cfgRound : GenConfig :=
  { points3d := [⟨0, 0, 0⟩, ⟨0.00006, 0, 0⟩, ⟨0, 0.00006, 0⟩]
    faces := [[0, 1, 2]]
    baseColor := (0, 0, 0)
    animation_duration := some 0
    orientation := some (0, 0, 0)
    randomOrientation := (0, 0, 0)
    rotation_axis := none }

/-- A degenerate (collinear) triangle, used to exercise the
degenerate-face policy. -/
def cfgDegen : GenConfig :=
  { points3d := [⟨0, 0, 0⟩, ⟨1, 0, 0⟩, ⟨2, 0, 0⟩]
    faces := [[0, 1, 2]]
    baseColor := (0, 0, 0)
    animation_duration := none
    orientation := some (0, 0, 0)
    randomOrientation := (0, 0, 0)
    rotation_axis := none }

/-! ## Matrix algebra lemmas -/

theorem Mat3.mul_assoc3 (A B C : Mat3) : (A.mul B).mul C = A.mul (B.mul C) := by
  simp only [Mat3.mul, Mat3.mk.injEq]
  refine ⟨?_, ?_, ?_, ?_, ?_, ?_, ?_, ?_, ?_⟩ <;> ring

theorem Mat3.mul_one_right (A : Mat3) : A.mul Mat3.one = A := by
  cases A
  simp only [Mat3.mul, Mat3.one, Mat3.mk.injEq]
  refine ⟨?_, ?_, ?_, ?_, ?_, ?_, ?_, ?_, ?_⟩ <;> ring

theorem Mat3.one_mul_left (A : Mat3) : Mat3.one.mul A = A := by
  cases A
  simp only [Mat3.mul, Mat3.one, Mat3.mk.injEq]
  refine ⟨?_, ?_, ?_, ?_, ?_, ?_, ?_, ?_, ?_⟩ <;> ring

theorem Mat3.transpose_mul (A B : Mat3) :
    (A.mul B).transpose = B.transpose.mul A.transpose := by
  simp only [Mat3.mul, Mat3.transpose, Mat3.mk.injEq]
  refine ⟨?_, ?_, ?_, ?_, ?_, ?_, ?_, ?_, ?_⟩ <;> ring

theorem Mat3.det_mul (A B : Mat3) : (A.mul B).det = A.det * B.det := by
  simp only [Mat3.mul, Mat3.det]
  ring

theorem Vec3.vecMul_one (p : Vec3) : p.vecMul Mat3.one = p := by
  cases p
  simp only [Vec3.vecMul, Mat3.one, Vec3.mk.injEq]
  refine ⟨?_, ?_, ?_⟩ <;> ring

/-- Orthogonality is closed under the matrix product. -/
theorem Mat3.orth_mul {A B : Mat3} (hA : A.mul A.transpose = Mat3.one)
    (hB : B.mul B.transpose = Mat3.one) :
    (A.mul B).mul (A.mul B).transpose = Mat3.one := by
  rw [Mat3.transpose_mul, Mat3.mul_assoc3, ← Mat3.mul_assoc3 B, hB,
    Mat3.one_mul_left, hA]

theorem rotX_orth (r : ℝ) : (rotX r).mul (rotX r).transpose = Mat3.one := by
  simp only [rotX, Mat3.mul, Mat3.transpose, Mat3.one, Mat3.mk.injEq]
  refine ⟨?_, ?_, ?_, ?_, ?_, ?_, ?_, ?_, ?_⟩ <;>
    nlinarith [Real.sin_sq_add_cos_sq r]

theorem rotY_orth (r : ℝ) : (rotY r).mul (rotY r).transpose = Mat3.one := by
  simp only [rotY, Mat3.mul, Mat3.transpose, Mat3.one, Mat3.mk.injEq]
  refine ⟨?_, ?_, ?_, ?_, ?_, ?_, ?_, ?_, ?_⟩ <;>
    nlinarith [Real.sin_sq_add_cos_sq r]

theorem rotZ_orth (r : ℝ) : (rotZ r).mul (rotZ r).transpose = Mat3.one := by
  simp only [rotZ, Mat3.mul, Mat3.transpose, Mat3.one, Mat3.mk.injEq]
  refine ⟨?_, ?_, ?_, ?_, ?_, ?_, ?_, ?_, ?_⟩ <;>
    nlinarith [Real.sin_sq_add_cos_sq r]

theorem rotX_det (r : ℝ) : (rotX r).det = 1 := by
  simp only [rotX, Mat3.det]
  nlinarith [Real.sin_sq_add_cos_sq r]

theorem rotY_det (r : ℝ) : (rotY r).det = 1 := by
  simp only [rotY, Mat3.det]
  nlinarith [Real.sin_sq_add_cos_sq r]

theorem rotZ_det (r : ℝ) : (rotZ r).det = 1 := by
  simp only [rotZ, Mat3.det]
  nlinarith [Real.sin_sq_add_cos_sq r]

theorem get_rotation_matrix_orth (rx ry rz : ℝ) :
    (get_rotation_matrix rx ry rz).mul (get_rotation_matrix rx ry rz).transpose
      = Mat3.one := by
  exact Mat3.orth_mul (Mat3.orth_mul (rotZ_orth _) (rotY_orth _)) (rotX_orth _)

theorem get_rotation_matrix_det (rx ry rz : ℝ) :
    (get_rotation_matrix rx ry rz).det = 1 := by
  simp [get_rotation_matrix, Mat3.det_mul, rotX_det, rotY_det, rotZ_det]

/-- For a unit quaternion the conversion formula yields an orthogonal
matrix. -/
theorem quatMat_orth {a b c d : ℝ} (h : a ^ 2 + b ^ 2 + c ^ 2 + d ^ 2 = 1) :
    (quatMat a b c d).mul (quatMat a b c d).transpose = Mat3.one := by
  simp only [quatMat, Mat3.mul, Mat3.transpose, Mat3.one, Mat3.mk.injEq]
  refine ⟨?_, ?_, ?_, ?_, ?_, ?_, ?_, ?_, ?_⟩ <;>
    first
      | ring1
      | linear_combination (a ^ 2 + b ^ 2 + c ^ 2 + d ^ 2 + 1) * h

/-- For a unit quaternion the conversion formula yields determinant 1. -/
theorem quatMat_det {a b c d : ℝ} (h : a ^ 2 + b ^ 2 + c ^ 2 + d ^ 2 = 1) :
    (quatMat a b c d).det = 1 := by
  simp only [quatMat, Mat3.det]
  linear_combination ((a ^ 2 + b ^ 2 + c ^ 2 + d ^ 2) ^ 2
    + (a ^ 2 + b ^ 2 + c ^ 2 + d ^ 2) + 1) * h

theorem Vec3.dot_self_nonneg (v : Vec3) : 0 ≤ v.dot v := by
  simp only [Vec3.dot]
  nlinarith [sq_nonneg v.x, sq_nonneg v.y, sq_nonneg v.z]

theorem Vec3.dot_self_pos {v : Vec3} (h : v ≠ ⟨0, 0, 0⟩) : 0 < v.dot v := by
  rcases lt_or_eq_of_le (Vec3.dot_self_nonneg v) with hlt | heq
  · exact hlt
  · exfalso
    apply h
    cases v with
    | mk x y z =>
      simp only [Vec3.dot] at heq
      have hx : x = 0 := by nlinarith [sq_nonneg x, sq_nonneg y, sq_nonneg z]
      have hy : y = 0 := by nlinarith [sq_nonneg x, sq_nonneg y, sq_nonneg z]
      have hz : z = 0 := by nlinarith [sq_nonneg x, sq_nonneg y, sq_nonneg z]
      simp [hx, hy, hz]

theorem Vec3.len_pos {v : Vec3} (h : v ≠ ⟨0, 0, 0⟩) : 0 < v.len := by
  exact Real.sqrt_pos.mpr (Vec3.dot_self_pos h)

theorem Vec3.len_sq (v : Vec3) : v.len ^ 2 = v.dot v := by
  exact Real.sq_sqrt (Vec3.dot_self_nonneg v)

/-- The quaternion built for a nonzero axis is a unit quaternion. -/
theorem axis_quat_unit {axis : Vec3} (h : axis ≠ ⟨0, 0, 0⟩) (θ : ℝ) :
    Real.cos θ ^ 2 + (-(axis.x / axis.len) * Real.sin θ) ^ 2
      + (-(axis.y / axis.len) * Real.sin θ) ^ 2
      + (-(axis.z / axis.len) * Real.sin θ) ^ 2 = 1 := by
  have hlen : 0 < axis.len := Vec3.len_pos h
  have hsq : axis.len ^ 2 = axis.x * axis.x + axis.y * axis.y + axis.z * axis.z := by
    simpa [Vec3.dot] using Vec3.len_sq axis
  have hne : axis.len ≠ 0 := ne_of_gt hlen
  field_simp
  nlinarith [Real.sin_sq_add_cos_sq θ, hsq, sq_nonneg (Real.sin θ)]

theorem get_rotation_matrix_around_axis_orth {axis : Vec3}
    (h : axis ≠ ⟨0, 0, 0⟩) (angleDeg : ℝ) :
    (get_rotation_matrix_around_axis axis angleDeg).mul
        (get_rotation_matrix_around_axis axis angleDeg).transpose = Mat3.one := by
  exact quatMat_orth (axis_quat_unit h (radians angleDeg / 2))

theorem get_rotation_matrix_around_axis_det {axis : Vec3}
    (h : axis ≠ ⟨0, 0, 0⟩) (angleDeg : ℝ) :
    (get_rotation_matrix_around_axis axis angleDeg).det = 1 := by
  exact quatMat_det (axis_quat_unit h (radians angleDeg / 2))

/-- Orientation (0, 0, 0) yields the identity rotation. -/
theorem get_rotation_matrix_zero : get_rotation_matrix 0 0 0 = Mat3.one := by
  simp only [get_rotation_matrix, radians, rotX, rotY, rotZ, zero_mul, zero_div,
    Real.cos_zero, Real.sin_zero, Mat3.mul, Mat3.one, Mat3.mk.injEq]
  norm_num

/-- An axis rotation by 0 degrees yields the identity rotation. -/
theorem get_rotation_matrix_around_axis_zero {axis : Vec3} (h : axis ≠ ⟨0, 0, 0⟩) :
    get_rotation_matrix_around_axis axis 0 = Mat3.one := by
  have hlen : axis.len ≠ 0 := ne_of_gt (Vec3.len_pos h)
  simp only [get_rotation_matrix_around_axis, radians, zero_mul, zero_div,
    Real.cos_zero, Real.sin_zero, quatMat, Mat3.one, Mat3.mk.injEq]
  norm_num

/-- Claim C7: every matrix produced by the Euler-angle construction
(composed as Rz times Ry times Rx after degree-to-radian conversion) and
by the axis-angle/quaternion construction (for any nonzero axis)
satisfies R times R-transpose = identity and det R = 1, exactly, over
the real-arithmetic embedding. -/
theorem claim7_rotation_orthonormal :
    (∀ rx ry rz : ℝ,
        (get_rotation_matrix rx ry rz).mul
            (get_rotation_matrix rx ry rz).transpose = Mat3.one
          ∧ (get_rotation_matrix rx ry rz).det = 1)
    ∧ ∀ axis : Vec3, axis ≠ ⟨0, 0, 0⟩ → ∀ angleDeg : ℝ,
        (get_rotation_matrix_around_axis axis angleDeg).mul
            (get_rotation_matrix_around_axis axis angleDeg).transpose = Mat3.one
          ∧ (get_rotation_matrix_around_axis axis angleDeg).det = 1 := by
  constructor
  · intro rx ry rz
    exact ⟨get_rotation_matrix_orth rx ry rz, get_rotation_matrix_det rx ry rz⟩
  · intro axis haxis angleDeg
    exact ⟨get_rotation_matrix_around_axis_orth haxis angleDeg,
      get_rotation_matrix_around_axis_det haxis angleDeg⟩

/-- Witness for C7 at the concrete inputs (10, 20, 30) degrees and the
default animation axis (0, 1, 0) with a 5 degree step. -/
theorem claim7_witness :
    ((get_rotation_matrix 10 20 30).mul
        (get_rotation_matrix 10 20 30).transpose = Mat3.one
      ∧ (get_rotation_matrix 10 20 30).det = 1)
    ∧ ((get_rotation_matrix_around_axis ⟨0, 1, 0⟩ 5).mul
        (get_rotation_matrix_around_axis ⟨0, 1, 0⟩ 5).transpose = Mat3.one
      ∧ (get_rotation_matrix_around_axis ⟨0, 1, 0⟩ 5).det = 1) := by
  refine ⟨claim7_rotation_orthonormal.1 10 20 30,
    claim7_rotation_orthonormal.2 ⟨0, 1, 0⟩ ?_ 5⟩
  intro hcon
  exact absurd (congrArg Vec3.y hcon) (by norm_num)

/-! ## Characterizing the per-frame loop -/

/-- A successfully processed face carries its own face index. -/
theorem processFace_idx {base rotated i face e}
    (h : processFace base rotated i face = some e) : e.face_index = i := by
  simp only [processFace] at h
  split at h
  · exact absurd h (by simp)
  · cases h
    rfl

/-- A face is skipped exactly when its cross product has zero length. -/
theorem processFace_eq_none_iff {base rotated i face} :
    processFace base rotated i face = none ↔ (faceCross rotated face).len = 0 := by
  simp only [processFace]
  split
  · simp_all
  · simp_all

/-- Every member of the enumerated face loop output arises from the face
at its own index, and the index lies in the enumerated range. -/
theorem processFacesAux_mem {base rotated} :
    ∀ (faces : List (List ℕ)) (k : ℕ) (e : ShadedFace),
      e ∈ processFacesAux base rotated k faces →
      k ≤ e.face_index ∧ e.face_index < k + faces.length
        ∧ ∃ face, faces[e.face_index - k]? = some face
            ∧ processFace base rotated e.face_index face = some e := by
  intro faces
  induction faces with
  | nil => intro k e he; simp [processFacesAux] at he
  | cons f rest ih =>
    intro k e he
    simp only [processFacesAux] at he
    rcases hpf : processFace base rotated k f with _ | e0 <;> rw [hpf] at he
    · obtain ⟨h1, h2, face, h3, h4⟩ := ih (k + 1) e he
      refine ⟨by omega, by simp; omega, face, ?_, h4⟩
      have : e.face_index - k = (e.face_index - (k + 1)) + 1 := by omega
      rw [this]
      simpa using h3
    · rcases List.mem_cons.mp he with rfl | hmem
      · have hidx := processFace_idx hpf
        refine ⟨le_of_eq hidx.symm, by simp [hidx], f, ?_, by rw [hidx]; exact hpf⟩
        simp [hidx]
      · obtain ⟨h1, h2, face, h3, h4⟩ := ih (k + 1) e hmem
        refine ⟨by omega, by simp; omega, face, ?_, h4⟩
        have : e.face_index - k = (e.face_index - (k + 1)) + 1 := by omega
        rw [this]
        simpa using h3

/-- Conversely, every non-degenerate face of the list yields a member of
the loop output. -/
theorem processFacesAux_complete {base rotated} :
    ∀ (faces : List (List ℕ)) (k j : ℕ) (face : List ℕ) (e : ShadedFace),
      faces[j]? = some face → processFace base rotated (k + j) face = some e →
      e ∈ processFacesAux base rotated k faces := by
  intro faces
  induction faces with
  | nil => intro k j face e hj; simp at hj
  | cons f rest ih =>
    intro k j face e hj hpf
    cases j with
    | zero =>
      simp only [List.getElem?_cons_zero, Option.some.injEq] at hj
      subst hj
      simp only [processFacesAux]
      rw [show k + 0 = k from rfl] at hpf
      rw [hpf]
      exact List.mem_cons_self _ _
    | succ j' =>
      simp only [List.getElem?_cons_succ] at hj
      have hmem := ih (k + 1) j' face e hj (by rw [show k + 1 + j' = k + (j' + 1) by omega]; exact hpf)
      simp only [processFacesAux]
      rcases hpf0 : processFace base rotated k f with _ | e0
      · exact hmem
      · exact List.mem_cons_of_mem _ hmem

/-- The face indices of the loop output are strictly increasing. -/
theorem processFacesAux_pairwise {base rotated} :
    ∀ (faces : List (List ℕ)) (k : ℕ),
      ((processFacesAux base rotated k faces).map ShadedFace.face_index).Pairwise (· < ·) := by
  intro faces
  induction faces with
  | nil => intro k; simp [processFacesAux]
  | cons f rest ih =>
    intro k
    simp only [processFacesAux]
    rcases hpf : processFace base rotated k f with _ | e0
    · exact ih (k + 1)
    · simp only [List.map_cons, List.pairwise_cons]
      refine ⟨?_, ih (k + 1)⟩
      intro m hm
      obtain ⟨e, he, rfl⟩ := List.mem_map.mp hm
      have := (processFacesAux_mem rest (k + 1) e he).1
      rw [processFace_idx hpf]
      omega

/-- The face indices of one frame's shaded faces contain no
duplicates. -/
theorem frameFaces_nodup (cfg : GenConfig) (frame : ℕ) :
    ((frameFaces cfg frame).map ShadedFace.face_index).Nodup := by
  have := @processFacesAux_pairwise cfg.baseColor (rotatedAt cfg frame)
    cfg.faces 0
  exact this.nodup

/-- The sorted frame list is a permutation of the unsorted one. -/
theorem frameFacesSorted_perm (cfg : GenConfig) (frame : ℕ) :
    (frameFacesSorted cfg frame).Perm (frameFaces cfg frame) := by
  exact List.mergeSort_perm _ _

theorem frameFacesSorted_nodup (cfg : GenConfig) (frame : ℕ) :
    ((frameFacesSorted cfg frame).map ShadedFace.face_index).Nodup := by
  exact (((frameFacesSorted_perm cfg frame).map ShadedFace.face_index).nodup_iff).mpr
    (frameFaces_nodup cfg frame)

/-- With duplicate-free indices, find? locates any given member. -/
theorem find?_idx_eq_some_of_mem {l : List ShadedFace} {e : ShadedFace} {i : ℕ}
    (hnd : (l.map ShadedFace.face_index).Nodup) (he : e ∈ l)
    (hei : e.face_index = i) :
    l.find? (fun a => a.face_index == i) = some e := by
  induction l with
  | nil => simp at he
  | cons a t ih =>
    simp only [List.map_cons, List.nodup_cons] at hnd
    rcases List.mem_cons.mp he with rfl | hmem
    · simp [List.find?, hei]
    · have hne : a.face_index ≠ i := by
        intro hcon
        exact hnd.1 (hcon ▸ hei ▸ List.mem_map_of_mem ShadedFace.face_index hmem)
      have hbeq : (a.face_index == i) = false := by simpa using hne
      simp only [List.find?, hbeq]
      exact ih hnd.2 hmem

theorem frameEntry_eq_some_iff {cfg : GenConfig} {i frame : ℕ} {e : ShadedFace} :
    frameEntry cfg i frame = some e ↔ e ∈ frameFaces cfg frame ∧ e.face_index = i := by
  constructor
  · intro h
    refine ⟨List.mem_of_find?_eq_some h, ?_⟩
    have := List.find?_some h
    simpa using this
  · intro ⟨hmem, hidx⟩
    exact find?_idx_eq_some_of_mem (frameFaces_nodup cfg frame) hmem hidx

theorem frameEntry_eq_none_iff {cfg : GenConfig} {i frame : ℕ} :
    frameEntry cfg i frame = none ↔
      ∀ e ∈ frameFaces cfg frame, e.face_index ≠ i := by
  simp [frameEntry, List.find?_eq_none]

/-! ## Characterizing the store step and the accumulated records -/

theorem storeFrame_length (anims : List FaceAnim) (ffs : List ShadedFace) :
    (storeFrame anims ffs).length = anims.length := by
  induction ffs generalizing anims with
  | nil => rfl
  | cons e t ih =>
    simp only [storeFrame, List.foldl_cons]
    rw [show ∀ (a : List FaceAnim),
        t.foldl (fun acc e => List.modify (fun r => appendAnim r e) e.face_index acc) a
          = storeFrame a t from fun a => rfl]
    rw [ih, List.length_modify]

/-- A face index hit by no member of the frame keeps its record. -/
theorem storeFrame_getElem?_none {i : ℕ} (anims : List FaceAnim)
    (ffs : List ShadedFace) (hnone : ∀ e ∈ ffs, e.face_index ≠ i) :
    (storeFrame anims ffs)[i]? = anims[i]? := by
  induction ffs generalizing anims with
  | nil => rfl
  | cons e t ih =>
    simp only [storeFrame, List.foldl_cons]
    rw [show ∀ (a : List FaceAnim),
        t.foldl (fun acc e => List.modify (fun r => appendAnim r e) e.face_index acc) a
          = storeFrame a t from fun a => rfl]
    rw [ih _ (fun a ha => hnone a (List.mem_cons_of_mem _ ha)),
      List.getElem?_modify]
    have hne := hnone e (List.mem_cons_self _ _)
    cases anims[i]? with
    | none => rfl
    | some r => simp [hne]

/-- A face index hit by exactly one member of the frame gets that
member's data appended to its record. -/
theorem storeFrame_getElem?_unique {i : ℕ} {e : ShadedFace}
    (anims : List FaceAnim) (ffs : List ShadedFace)
    (hnd : (ffs.map ShadedFace.face_index).Nodup) (he : e ∈ ffs)
    (hei : e.face_index = i) :
    (storeFrame anims ffs)[i]? = anims[i]?.map (fun r => appendAnim r e) := by
  induction ffs generalizing anims with
  | nil => simp at he
  | cons a t ih =>
    simp only [List.map_cons, List.nodup_cons] at hnd
    simp only [storeFrame, List.foldl_cons]
    rw [show ∀ (x : List FaceAnim),
        t.foldl (fun acc e => List.modify (fun r => appendAnim r e) e.face_index acc) x
          = storeFrame x t from fun x => rfl]
    rcases List.mem_cons.mp he with rfl | hmem
    · have hnone : ∀ b ∈ t, b.face_index ≠ i := by
        intro b hb hcon
        exact hnd.1 (hei ▸ hcon ▸ List.mem_map_of_mem ShadedFace.face_index hb)
      rw [storeFrame_getElem?_none _ t hnone, List.getElem?_modify, hei]
      cases anims[i]? with
      | none => rfl
      | some r => simp
    · have hne : a.face_index ≠ i := by
        intro hcon
        exact hnd.1 (hcon ▸ hei ▸ List.mem_map_of_mem ShadedFace.face_index hmem)
      rw [ih _ hnd.2 hmem, List.getElem?_modify]
      cases anims[i]? with
      | none => rfl
      | some r => simp [hne]

theorem animsAfter_length (cfg : GenConfig) (n : ℕ) :
    (animsAfter cfg n).length = cfg.faces.length := by
  induction n with
  | zero => simp [animsAfter]
  | succ n ih => simp [animsAfter, storeFrame_length, ih]

/-- Master characterization of the frame loop: after n frames, the record
of face i holds exactly the values of the frames that processed the
face, in frame order. -/
theorem animsAfter_getElem? (cfg : GenConfig) (n : ℕ) {i : ℕ}
    (hi : i < cfg.faces.length) :
    (animsAfter cfg n)[i]? = some (recordAt cfg n i) := by
  induction n with
  | zero =>
    simp only [animsAfter, List.getElem?_replicate, hi, if_true, recordAt,
      List.range_zero, List.filterMap_nil, List.map_nil]
    rfl
  | succ n ih =>
    have hnd := frameFacesSorted_nodup cfg n
    simp only [animsAfter]
    rcases hE : frameEntry cfg i n with _ | e
    · have hnone : ∀ e ∈ frameFacesSorted cfg n, e.face_index ≠ i := by
        intro e hmem
        exact (frameEntry_eq_none_iff.mp hE) e
          ((frameFacesSorted_perm cfg n).mem_iff.mp hmem)
      rw [storeFrame_getElem?_none _ _ hnone, ih]
      simp only [recordAt, List.range_succ, List.filterMap_append,
        List.filterMap_cons, hE, List.filterMap_nil, List.append_nil]
    · obtain ⟨hmem, hidx⟩ := frameEntry_eq_some_iff.mp hE
      have hmem' : e ∈ frameFacesSorted cfg n :=
        (frameFacesSorted_perm cfg n).mem_iff.mpr hmem
      rw [storeFrame_getElem?_unique _ _ hnd hmem' hidx, ih]
      simp only [Option.map_some, recordAt, List.range_succ,
        List.filterMap_append, List.filterMap_cons, hE, List.filterMap_nil,
        List.append_nil, appendAnim, List.map_append, List.map_cons, List.map_nil]
      rfl

/-- The accumulated records, as a whole list: one record per face in face
order. -/
theorem animsAfter_eq_map (cfg : GenConfig) (n : ℕ) :
    animsAfter cfg n = (List.range cfg.faces.length).map (recordAt cfg n) := by
  apply List.ext_getElem?
  intro j
  rcases lt_or_ge j cfg.faces.length with hj | hj
  · rw [animsAfter_getElem? cfg n hj, List.getElem?_map, List.getElem?_range hj]
    rfl
  · rw [List.getElem?_eq_none (by rw [animsAfter_length]; exact hj),
      List.getElem?_eq_none (by rw [List.length_map, List.length_range]; exact hj)]

/-! ## Small filterMap utilities -/

theorem filterMap_getElem?_all_some {α β : Type} {g : α → Option β}
    (l : List α) (hall : ∀ a ∈ l, (g a).isSome) (k : ℕ) :
    (l.filterMap g)[k]? = l[k]?.bind g := by
  induction l generalizing k with
  | nil => simp
  | cons a t ih =>
    obtain ⟨b, hb⟩ := Option.isSome_iff_exists.mp (hall a (List.mem_cons_self _ _))
    rw [List.filterMap_cons, hb]
    cases k with
    | zero => simp [hb]
    | succ k' =>
      simp only [List.getElem?_cons_succ]
      exact ih (fun x hx => hall x (List.mem_cons_of_mem _ hx)) k'

theorem filterMap_length_all_some {α β : Type} {g : α → Option β}
    (l : List α) (hall : ∀ a ∈ l, (g a).isSome) :
    (l.filterMap g).length = l.length := by
  induction l with
  | nil => simp
  | cons a t ih =>
    obtain ⟨b, hb⟩ := Option.isSome_iff_exists.mp (hall a (List.mem_cons_self _ _))
    rw [List.filterMap_cons, hb]
    simp only [List.length_cons]
    rw [ih (fun x hx => hall x (List.mem_cons_of_mem _ hx))]

theorem filterMap_congr_some {α β : Type} {g : α → Option β} {e : β}
    (l : List α) (hconst : ∀ a ∈ l, g a = some e) :
    l.filterMap g = List.replicate l.length e := by
  induction l with
  | nil => simp
  | cons a t ih =>
    rw [List.filterMap_cons, hconst a (List.mem_cons_self _ _),
      ih (fun x hx => hconst x (List.mem_cons_of_mem _ hx))]
    simp [List.replicate]

/-! ## Emission characterization -/

/-- With a non-None duration, the emitter takes the animated branch and
walks the per-face records in original face order, keeping those with at
least one stored keyframe. -/
theorem generateSVG_animated (cfg : GenConfig) (d : ℚ)
    (hd : cfg.animation_duration = some d) :
    generateSVG cfg = .animated
      (((List.range cfg.faces.length).filter
          (fun i => !(recordAt cfg numFrames i).points_values.isEmpty)).map
        (fun i => buildPoly cfg d (recordAt cfg numFrames i))) := by
  simp only [generateSVG, hd, faceAnimationsFinal, Option.isNone_some,
    Bool.false_eq_true, if_false, animsAfter_eq_map, List.filter_map]
  rw [List.map_map]
  congr 1

/-- Claim C9 (invariant): for every face's animation record, the three
lists points_values, color_values and visibility_values always have
equal length, and each frame-loop iteration either appends exactly one
entry to all three of a face's lists or appends to none of them. -/
theorem claim9_record_alignment (cfg : GenConfig) (n i : ℕ) (r : FaceAnim)
    (h : (animsAfter cfg n)[i]? = some r) :
    (r.points_values.length = r.color_values.length
      ∧ r.visibility_values.length = r.color_values.length)
    ∧ ∀ r', (animsAfter cfg (n + 1))[i]? = some r' →
        (∃ e : ShadedFace, r'.points_values
              = r.points_values ++ [e.pts2d.map quantPoint]
            ∧ r'.color_values = r.color_values ++ [e.color]
            ∧ r'.visibility_values = r.visibility_values
                ++ [if e.visible then "visible" else "hidden"])
          ∨ r' = r := by
  have hi : i < cfg.faces.length := by
    by_contra hge
    rw [List.getElem?_eq_none (by rw [animsAfter_length]; omega)] at h
    cases h
  have hr : r = recordAt cfg n i := by
    have := animsAfter_getElem? cfg n hi
    rw [h] at this
    exact Option.some_injective _ this
  subst hr
  constructor
  · simp [recordAt]
  · intro r' h'
    have hr' : r' = recordAt cfg (n + 1) i := by
      have := animsAfter_getElem? cfg (n + 1) hi
      rw [h'] at this
      exact Option.some_injective _ this
    subst hr'
    rcases hE : frameEntry cfg i n with _ | e
    · right
      simp [recordAt, List.range_succ, List.filterMap_append, hE]
    · left
      exact ⟨e, by simp [recordAt, List.range_succ, List.filterMap_append, hE]⟩

/-- Witness for C9: the triangle configuration after 0 frames at face
index 0, where the record is still empty on all three lists. -/
theorem claim9_witness :
    ((emptyAnim.points_values.length = emptyAnim.color_values.length
      ∧ emptyAnim.visibility_values.length = emptyAnim.color_values.length)
    ∧ ∀ r', (animsAfter cfgTri (0 + 1))[0]? = some r' →
        (∃ e : ShadedFace, r'.points_values
              = emptyAnim.points_values ++ [e.pts2d.map quantPoint]
            ∧ r'.color_values = emptyAnim.color_values ++ [e.color]
            ∧ r'.visibility_values = emptyAnim.visibility_values
                ++ [if e.visible then "visible" else "hidden"])
          ∨ r' = emptyAnim) := by
  exact claim9_record_alignment cfgTri 0 0 emptyAnim
    (by simp [animsAfter, cfgTri, triFaces, List.replicate])


/-! ## Concrete evaluation of the triangle configuration -/

/-- Face vertices of a three-vertex face over a three-point list. -/
theorem faceVertices_triple (a b c : Vec3) :
    faceVertices [a, b, c] [0, 1, 2] = [a, b, c] := rfl

/-- Face cross product of a three-vertex face over a three-point list. -/
theorem faceCross_triple (a b c : Vec3) :
    faceCross [a, b, c] [0, 1, 2] = (b.sub a).cross (c.sub a) := rfl

/-- The axis-angle construction for the Z axis reduces to a planar
quaternion. -/
theorem zAxisMat (θ : ℝ) :
    get_rotation_matrix_around_axis ⟨0, 0, 1⟩ θ
      = quatMat (Real.cos (radians θ / 2)) 0 0 (-Real.sin (radians θ / 2)) := by
  have hlen : (Vec3.len ⟨0, 0, 1⟩) = 1 := by
    simp only [Vec3.len, Vec3.dot]
    norm_num
  simp only [get_rotation_matrix_around_axis, hlen]
  norm_num

/-- The rotated triangle, written out pointwise. -/
theorem tri_rotated (M : Mat3) :
    triPoints.map (fun p => p.vecMul M)
      = [Vec3.vecMul ⟨0, 0, 0⟩ M, Vec3.vecMul ⟨0, 1, 0⟩ M, Vec3.vecMul ⟨1, 0, 0⟩ M] := rfl

/-- Across every Z-axis rotation, the triangle's face normal stays
(0, 0, -1): the rotation keeps the face in the z = 0 plane and preserves
the planar cross product. -/
theorem tri_faceCross (θ : ℝ) :
    faceCross
        (triPoints.map (fun p => p.vecMul (get_rotation_matrix_around_axis ⟨0, 0, 1⟩ θ)))
        [0, 1, 2] = ⟨0, 0, -1⟩ := by
  have h := Real.sin_sq_add_cos_sq (radians θ / 2)
  rw [zAxisMat, tri_rotated, faceCross_triple]
  simp only [Vec3.vecMul, quatMat, Vec3.sub, Vec3.cross, Vec3.mk.injEq]
  refine ⟨by ring, by ring, ?_⟩
  linear_combination (-(Real.sin (radians θ / 2)) ^ 2
    - Real.cos (radians θ / 2) ^ 2 - 1) * h

/-- Z-axis rotations keep z = 0 points in the z = 0 plane. -/
theorem zAxis_keeps_plane (θ : ℝ) (p : Vec3) (hp : p.z = 0) :
    (p.vecMul (get_rotation_matrix_around_axis ⟨0, 0, 1⟩ θ)).z = 0 := by
  rw [zAxisMat]
  simp only [Vec3.vecMul, quatMat, hp]
  ring

/-- Processing the triangle's face at any Z-axis rotation yields a
non-degenerate, back-facing shaded face of depth 0. -/
theorem tri_processFace (θ : ℝ) :
    ∃ pts : List (ℝ × ℝ), processFace (0, 0, 0)
        (triPoints.map (fun p => p.vecMul (get_rotation_matrix_around_axis ⟨0, 0, 1⟩ θ)))
        0 [0, 1, 2]
      = some ⟨0, pts, 0, colorOf (0, 0, 0) ⟨0, 0, -1⟩, false⟩ := by
  have hcross := tri_faceCross θ
  have hlen : (Vec3.len ⟨0, 0, -1⟩) = 1 := by
    simp only [Vec3.len, Vec3.dot]
    norm_num
  have hscale : Vec3.scale (1 / 1) ⟨0, 0, -1⟩ = (⟨0, 0, -1⟩ : Vec3) := by
    simp only [Vec3.scale, Vec3.mk.injEq]
    norm_num
  have hvis : (decide (0 ≤ Vec3.dot ⟨0, 0, -1⟩ viewVector)) = false := by
    rw [decide_eq_false_iff_not]
    simp only [Vec3.dot, viewVector]
    norm_num
  have hz0 := zAxis_keeps_plane θ ⟨0, 0, 0⟩ rfl
  have hz1 := zAxis_keeps_plane θ ⟨0, 1, 0⟩ rfl
  have hz2 := zAxis_keeps_plane θ ⟨1, 0, 0⟩ rfl
  refine ⟨[((Vec3.vecMul ⟨0, 0, 0⟩ (get_rotation_matrix_around_axis ⟨0, 0, 1⟩ θ)).x,
            (Vec3.vecMul ⟨0, 0, 0⟩ (get_rotation_matrix_around_axis ⟨0, 0, 1⟩ θ)).y),
           ((Vec3.vecMul ⟨0, 1, 0⟩ (get_rotation_matrix_around_axis ⟨0, 0, 1⟩ θ)).x,
            (Vec3.vecMul ⟨0, 1, 0⟩ (get_rotation_matrix_around_axis ⟨0, 0, 1⟩ θ)).y),
           ((Vec3.vecMul ⟨1, 0, 0⟩ (get_rotation_matrix_around_axis ⟨0, 0, 1⟩ θ)).x,
            (Vec3.vecMul ⟨1, 0, 0⟩ (get_rotation_matrix_around_axis ⟨0, 0, 1⟩ θ)).y)], ?_⟩
  rw [tri_rotated] at hcross
  simp only [processFace, hcross, hlen, one_ne_zero, if_false, tri_rotated,
    faceVertices_triple, hscale, hvis, List.map_cons, List.map_nil,
    List.sum_cons, List.sum_nil, List.length_cons, List.length_nil, hz0, hz1, hz2]
  rw [Option.some.injEq, ShadedFace.mk.injEq]
  refine ⟨rfl, rfl, by norm_num, rfl, rfl⟩

/-- Every frame of the triangle configuration processes exactly the one
face, back-facing. -/
theorem tri_frame (f : ℕ) :
    ∃ e : ShadedFace, frameFaces cfgTri f = [e]
      ∧ e.face_index = 0 ∧ e.visible = false := by
  have htruthy : cfgTri.animTruthy = true := by
    simp only [GenConfig.animTruthy, cfgTri, decide_eq_true_eq]
    norm_num
  have hinit : initialRotation cfgTri = Mat3.one := by
    simp only [initialRotation, cfgTri]
    exact get_rotation_matrix_zero
  have hrot : rotFor cfgTri f
      = get_rotation_matrix_around_axis ⟨0, 0, 1⟩ ((360 / (numFrames : ℝ)) * (f : ℝ)) := by
    rw [rotFor, htruthy, hinit]
    simp only [if_true, Mat3.mul_one_right]
    rfl
  obtain ⟨pts, hpf⟩ := tri_processFace ((360 / (numFrames : ℝ)) * (f : ℝ))
  refine ⟨⟨0, pts, 0, colorOf (0, 0, 0) ⟨0, 0, -1⟩, false⟩, ?_, rfl, rfl⟩
  have hrotated : rotatedAt cfgTri f
      = triPoints.map (fun p =>
          p.vecMul (get_rotation_matrix_around_axis ⟨0, 0, 1⟩
            ((360 / (numFrames : ℝ)) * (f : ℝ)))) := by
    rw [rotatedAt, hrot]
    rfl
  rw [frameFaces, hrotated]
  show processFacesAux (0, 0, 0) _ 0 [[0, 1, 2]] = _
  simp only [processFacesAux, hpf]

/-- Every frame of the triangle configuration stores exactly one entry,
whose visibility token is hidden. -/
theorem tri_frameEntry (f : ℕ) :
    ∃ e : ShadedFace, frameEntry cfgTri 0 f = some e ∧ e.visible = false := by
  obtain ⟨e, hff, hidx, hvis⟩ := tri_frame f
  refine ⟨e, ?_, hvis⟩
  rw [frameEntry, hff]
  simp [List.find?, hidx]

/-- The triangle's accumulated record over n frames: n stored keyframes,
all of them hidden. -/
theorem tri_recordAt (n : ℕ) :
    (recordAt cfgTri n 0).points_values.length = n
      ∧ (recordAt cfgTri n 0).visibility_values = List.replicate n "hidden" := by
  have hall : ∀ f ∈ List.range n, (frameEntry cfgTri 0 f).isSome := by
    intro f _
    obtain ⟨e, he, _⟩ := tri_frameEntry f
    simp [he]
  constructor
  · simp only [recordAt, List.length_map]
    rw [filterMap_length_all_some _ hall, List.length_range]
  · apply List.ext_getElem?
    intro k
    simp only [recordAt, List.getElem?_map, List.getElem?_replicate]
    rw [filterMap_getElem?_all_some _ hall k]
    rcases lt_or_ge k n with hk | hk
    · obtain ⟨e, he, hvis⟩ := tri_frameEntry k
      rw [List.getElem?_range hk]
      simp [he, hvis, hk]
    · rw [List.getElem?_eq_none (by simpa using hk)]
      simp [Nat.not_lt_of_ge hk]

/-! ## Claim C1 -/

/-- A record holds a keyframe exactly when some frame processed the
face. -/
theorem recordAt_ne_nil_iff (cfg : GenConfig) (n i : ℕ) :
    (recordAt cfg n i).points_values ≠ []
      ↔ ∃ f, f < n ∧ (frameEntry cfg i f).isSome := by
  simp only [recordAt, ne_eq, List.map_eq_nil_iff, List.filterMap_eq_nil_iff,
    not_forall]
  constructor
  · rintro ⟨f, hf, hne⟩
    exact ⟨f, List.mem_range.mp hf, Option.isSome_iff_ne_none.mpr hne⟩
  · rintro ⟨f, hf, hsome⟩
    exact ⟨f, List.mem_range.mpr hf, Option.isSome_iff_ne_none.mp hsome⟩

/-- Claim C1, amended: in animated mode the emitter emits exactly one
polygon for every face whose keyframe record is nonempty — that is,
every face that was non-degenerate (hence recorded) in at least one of
the 72 frames, which includes every face visible in at least one frame
but also faces visible in no frame — and no polygon for a face recorded
in no frame.  The polygons appear in original face-index order,
regardless of any per-frame depth sorting. -/
theorem claim1_animated_emission (cfg : GenConfig) (d : ℚ)
    (hd : cfg.animation_duration = some d) :
    generateSVG cfg = .animated
      (((List.range cfg.faces.length).filter
          (fun i => !(recordAt cfg numFrames i).points_values.isEmpty)).map
        (fun i => buildPoly cfg d (recordAt cfg numFrames i)))
    ∧ (∀ i : ℕ, (recordAt cfg numFrames i).points_values ≠ []
        ↔ ∃ f, f < numFrames ∧ (frameEntry cfg i f).isSome)
    ∧ ∀ i f : ℕ, f < numFrames → ∀ e : ShadedFace,
        frameEntry cfg i f = some e → e.visible = true →
        (recordAt cfg numFrames i).points_values ≠ [] := by
  refine ⟨generateSVG_animated cfg d hd, fun i => recordAt_ne_nil_iff cfg numFrames i, ?_⟩
  intro i f hf e he _
  exact (recordAt_ne_nil_iff cfg numFrames i).mpr ⟨f, hf, by simp [he]⟩

/-- Counterexample to C1 as stated: in the triangle configuration the
one face is back-facing (hidden) in all 72 frames, yet the animated
emitter still emits a polygon for it — so a face visible in no frame
does get a polygon. -/
theorem claim1_counterexample :
    (generateSVG cfgTri).animPolys.map (fun p => p.visibilityAnim.values)
      = [List.replicate numFrames "hidden"]
    ∧ (generateSVG cfgTri).animPolys.length = 1 := by
  obtain ⟨hlen, hvis⟩ := tri_recordAt numFrames
  have hne : (recordAt cfgTri numFrames 0).points_values ≠ [] := by
    intro hcon
    rw [hcon] at hlen
    simp [numFrames] at hlen
  have hisEmpty : (recordAt cfgTri numFrames 0).points_values.isEmpty = false := by
    rcases hpv : (recordAt cfgTri numFrames 0).points_values with _ | ⟨a, t⟩
    · exact absurd hpv hne
    · rfl
  rw [generateSVG_animated cfgTri 10 rfl]
  have hfl : cfgTri.faces.length = 1 := rfl
  rw [hfl, show List.range 1 = [0] by rw [List.range_succ, List.range_zero, List.nil_append]]
  simp only [List.filter_cons, hisEmpty, Bool.not_false, if_true,
    List.filter_nil, List.map_cons, List.map_nil, SVGOut.animPolys]
  constructor
  · rw [show (buildPoly cfgTri 10 (recordAt cfgTri numFrames 0)).visibilityAnim.values
        = (recordAt cfgTri numFrames 0).visibility_values from rfl, hvis]
  · rfl

/-- Witness for the amended C1 at the triangle configuration. -/
theorem claim1_witness :
    generateSVG cfgTri = .animated
      (((List.range cfgTri.faces.length).filter
          (fun i => !(recordAt cfgTri numFrames i).points_values.isEmpty)).map
        (fun i => buildPoly cfgTri 10 (recordAt cfgTri numFrames i)))
    ∧ (∀ i : ℕ, (recordAt cfgTri numFrames i).points_values ≠ []
        ↔ ∃ f, f < numFrames ∧ (frameEntry cfgTri i f).isSome)
    ∧ ∀ i f : ℕ, f < numFrames → ∀ e : ShadedFace,
        frameEntry cfgTri i f = some e → e.visible = true →
        (recordAt cfgTri numFrames i).points_values ≠ [] :=
  claim1_animated_emission cfgTri 10 rfl

/-! ## Claim C5 -/

/-- A face with in-range index and nonzero cross product is recorded in
the frame. -/
theorem frameEntry_isSome_of_nondeg {cfg : GenConfig} {i f : ℕ} {face : List ℕ}
    (hi : cfg.faces[i]? = some face)
    (hnd : (faceCross (rotatedAt cfg f) face).len ≠ 0) :
    (frameEntry cfg i f).isSome := by
  rcases hpf : processFace cfg.baseColor (rotatedAt cfg f) i face with _ | e
  · exact absurd (processFace_eq_none_iff.mp hpf) hnd
  · have hmem : e ∈ frameFaces cfg f :=
      processFacesAux_complete cfg.faces 0 i face e hi
        (by rw [Nat.zero_add]; exact hpf)
    have hidx := processFace_idx hpf
    rw [show frameFaces cfg f
        = processFacesAux cfg.baseColor (rotatedAt cfg f) 0 cfg.faces from rfl] at hmem
    have := frameEntry_eq_some_iff.mpr ⟨hmem, hidx⟩
    simp [this]

/-- Under all-frames processing, the record's three lists have one entry
per frame, and the entry of frame f sits at position f. -/
theorem recordAt_all_processed (cfg : GenConfig) (n i : ℕ)
    (hall : ∀ f, f < n → (frameEntry cfg i f).isSome) :
    (recordAt cfg n i).points_values.length = n
    ∧ (recordAt cfg n i).color_values.length = n
    ∧ (recordAt cfg n i).visibility_values.length = n
    ∧ ∀ f, f < n → ∀ e : ShadedFace, frameEntry cfg i f = some e →
        (recordAt cfg n i).visibility_values[f]?
          = some (if e.visible then "visible" else "hidden") := by
  have hall' : ∀ f ∈ List.range n, (frameEntry cfg i f).isSome := by
    intro f hf
    exact hall f (List.mem_range.mp hf)
  have hlen : ((List.range n).filterMap (frameEntry cfg i)).length = n := by
    rw [filterMap_length_all_some _ hall', List.length_range]
  refine ⟨by simp [recordAt, hlen], by simp [recordAt, hlen],
    by simp [recordAt, hlen], ?_⟩
  intro f hf e he
  simp only [recordAt, List.getElem?_map]
  rw [filterMap_getElem?_all_some _ hall' f, List.getElem?_range hf]
  simp [he]

/-- Claim C5, amended: for an animation of duration 10 (a Python float,
so the formatted duration string is 10.0s) over geometry in which no
face is ever degenerate, every emitted face carries three attribute
animations whose value lists each contain exactly 72 entries, all three
sharing duration 10.0s and repeatCount indefinite; a back-facing face at
a given frame is still recorded for that frame with visibility token
hidden, keeping the three lists aligned in count across all frames. -/
theorem claim5_animation_keyframes (cfg : GenConfig)
    (hd : cfg.animation_duration = some 10)
    (hnd : ∀ f, f < numFrames → ∀ (i : ℕ) (face : List ℕ), cfg.faces[i]? = some face →
      (faceCross (rotatedAt cfg f) face).len ≠ 0) :
    ∃ polys, generateSVG cfg = .animated polys
      ∧ polys.length = cfg.faces.length
      ∧ (∀ p ∈ polys,
          p.pointsAnim.values.length = numFrames
          ∧ p.fillAnim.values.length = numFrames
          ∧ p.visibilityAnim.values.length = numFrames
          ∧ p.pointsAnim.dur = "10.0s" ∧ p.fillAnim.dur = "10.0s"
          ∧ p.visibilityAnim.dur = "10.0s"
          ∧ p.pointsAnim.repeatCount = "indefinite"
          ∧ p.fillAnim.repeatCount = "indefinite"
          ∧ p.visibilityAnim.repeatCount = "indefinite")
      ∧ ∀ i f : ℕ, f < numFrames → ∀ e : ShadedFace,
          frameEntry cfg i f = some e → e.visible = false →
          (recordAt cfg numFrames i).visibility_values[f]? = some "hidden" := by
  have hdur : durString 10 = "10.0s" := by
    rw [durString]
    norm_num [pyFloatRepr]
    rfl
  have hsome : ∀ i, i < cfg.faces.length → ∀ f, f < numFrames →
      (frameEntry cfg i f).isSome := by
    intro i hi f hf
    obtain ⟨face, hface⟩ : ∃ face, cfg.faces[i]? = some face := by
      rw [List.getElem?_eq_getElem hi]
      exact ⟨_, rfl⟩
    exact frameEntry_isSome_of_nondeg hface (hnd f hf i face hface)
  have hrec : ∀ i, i < cfg.faces.length →
      (recordAt cfg numFrames i).points_values.length = numFrames
      ∧ (recordAt cfg numFrames i).color_values.length = numFrames
      ∧ (recordAt cfg numFrames i).visibility_values.length = numFrames := by
    intro i hi
    obtain ⟨h1, h2, h3, _⟩ := recordAt_all_processed cfg numFrames i (hsome i hi)
    exact ⟨h1, h2, h3⟩
  have hfilter : (List.range cfg.faces.length).filter
      (fun i => !(recordAt cfg numFrames i).points_values.isEmpty)
      = List.range cfg.faces.length := by
    rw [List.filter_eq_self]
    intro i hi
    have hlen := (hrec i (List.mem_range.mp hi)).1
    rcases hpv : (recordAt cfg numFrames i).points_values with _ | ⟨a, t⟩
    · rw [hpv] at hlen
      simp [numFrames] at hlen
    · rfl
  refine ⟨_, generateSVG_animated cfg 10 hd, ?_, ?_, ?_⟩
  · rw [hfilter, List.length_map, List.length_range]
  · intro p hp
    rw [hfilter] at hp
    obtain ⟨i, hi, rfl⟩ := List.mem_map.mp hp
    have hi' := List.mem_range.mp hi
    obtain ⟨h1, h2, h3⟩ := hrec i hi'
    exact ⟨by simpa [buildPoly] using h1, h2, h3, hdur, hdur, hdur, rfl, rfl, rfl⟩
  · intro i f hf e he hvis
    obtain ⟨_, _, _, h4⟩ := recordAt_all_processed cfg numFrames i
      (by
        intro f' hf'
        have hi : i < cfg.faces.length := by
          obtain ⟨hmem, hidx⟩ := frameEntry_eq_some_iff.mp he
          have := (processFacesAux_mem cfg.faces 0 e hmem).2.1
          omega
        exact hsome i hi f' hf')
    rw [h4 f hf e he, hvis]
    rfl

/-- Counterexample to C5 as stated: the duration reaches the emitter as
the Python float 10.0, so the dur attribute of the emitted animations is
the string 10.0s, not 10s. -/
theorem claim5_counterexample :
    (generateSVG cfgTri).animPolys.map (fun p => p.pointsAnim.dur) = ["10.0s"]
    ∧ ("10.0s" : String) ≠ "10s" := by
  obtain ⟨hlen, hvis⟩ := tri_recordAt numFrames
  have hne : (recordAt cfgTri numFrames 0).points_values ≠ [] := by
    intro hcon
    rw [hcon] at hlen
    simp [numFrames] at hlen
  have hisEmpty : (recordAt cfgTri numFrames 0).points_values.isEmpty = false := by
    rcases hpv : (recordAt cfgTri numFrames 0).points_values with _ | ⟨a, t⟩
    · exact absurd hpv hne
    · rfl
  rw [generateSVG_animated cfgTri 10 rfl]
  have hfl : cfgTri.faces.length = 1 := rfl
  rw [hfl, show List.range 1 = [0] by rw [List.range_succ, List.range_zero, List.nil_append]]
  simp only [List.filter_cons, hisEmpty, Bool.not_false, if_true,
    List.filter_nil, List.map_cons, List.map_nil, SVGOut.animPolys]
  constructor
  · rw [show (buildPoly cfgTri 10 (recordAt cfgTri numFrames 0)).pointsAnim.dur
        = durString 10 from rfl]
    rw [show durString 10 = pyFloatRepr 10 ++ "s" from rfl]
    norm_num [pyFloatRepr]
    rfl
  · decide

/-- The rotated triangle points of any frame, in Z-axis form. -/
theorem tri_rotatedAt (f : ℕ) :
    rotatedAt cfgTri f = triPoints.map (fun p =>
      p.vecMul (get_rotation_matrix_around_axis ⟨0, 0, 1⟩
        ((360 / (numFrames : ℝ)) * (f : ℝ)))) := by
  have htruthy : cfgTri.animTruthy = true := by
    simp only [GenConfig.animTruthy, cfgTri, decide_eq_true_eq]
    norm_num
  have hinit : initialRotation cfgTri = Mat3.one := by
    simp only [initialRotation, cfgTri]
    exact get_rotation_matrix_zero
  have hrot : rotFor cfgTri f
      = get_rotation_matrix_around_axis ⟨0, 0, 1⟩ ((360 / (numFrames : ℝ)) * (f : ℝ)) := by
    rw [rotFor, htruthy, hinit]
    simp only [if_true, Mat3.mul_one_right]
    rfl
  rw [rotatedAt, hrot]
  rfl

/-- Witness for the amended C5 at the triangle configuration, which is
non-degenerate in every frame. -/
theorem claim5_witness :
    ∃ polys, generateSVG cfgTri = .animated polys
      ∧ polys.length = cfgTri.faces.length
      ∧ (∀ p ∈ polys,
          p.pointsAnim.values.length = numFrames
          ∧ p.fillAnim.values.length = numFrames
          ∧ p.visibilityAnim.values.length = numFrames
          ∧ p.pointsAnim.dur = "10.0s" ∧ p.fillAnim.dur = "10.0s"
          ∧ p.visibilityAnim.dur = "10.0s"
          ∧ p.pointsAnim.repeatCount = "indefinite"
          ∧ p.fillAnim.repeatCount = "indefinite"
          ∧ p.visibilityAnim.repeatCount = "indefinite")
      ∧ ∀ i f : ℕ, f < numFrames → ∀ e : ShadedFace,
          frameEntry cfgTri i f = some e → e.visible = false →
          (recordAt cfgTri numFrames i).visibility_values[f]? = some "hidden" := by
  apply claim5_animation_keyframes cfgTri rfl
  intro f _ i face hface
  have hlen1 : cfgTri.faces = [[0, 1, 2]] := rfl
  rw [hlen1] at hface
  cases i with
  | zero =>
    simp only [List.getElem?_cons_zero, Option.some.injEq] at hface
    subst hface
    rw [tri_rotatedAt, tri_faceCross]
    rw [show (Vec3.len ⟨0, 0, -1⟩) = Real.sqrt (0 * 0 + 0 * 0 + -1 * -1) from rfl]
    norm_num
  | succ j =>
    simp at hface

/-! ## Claim C10 -/

/-- Claim C10: with animation_duration = 0.0 the truthiness checks treat
the duration as no animation — no per-frame rotation is composed and the
frame bounds use only the initial orientation — while the is-None checks
treat it as an animation: the loop runs all 72 frames and the emitter
takes the animated branch, writing polygons with 72 identical keyframes
and duration 0.0s. -/
theorem claim10_zero_duration (cfg : GenConfig)
    (hd : cfg.animation_duration = some 0) :
    (∀ f : ℕ, rotFor cfg f = initialRotation cfg)
    ∧ allRotatedPoints cfg
        = cfg.points3d.map (fun p => p.vecMul (initialRotation cfg))
    ∧ ∃ polys, generateSVG cfg = .animated polys
        ∧ ∀ p ∈ polys,
            p.pointsAnim.dur = "0.0s" ∧ p.fillAnim.dur = "0.0s"
            ∧ p.visibilityAnim.dur = "0.0s"
            ∧ p.pointsAnim.values.length = numFrames
            ∧ (∃ v, p.pointsAnim.values = List.replicate numFrames v)
            ∧ (∃ c, p.fillAnim.values = List.replicate numFrames c)
            ∧ ∃ w, p.visibilityAnim.values = List.replicate numFrames w := by
  have htruthy : cfg.animTruthy = false := by
    simp [GenConfig.animTruthy, hd]
  have hrot : ∀ f : ℕ, rotFor cfg f = initialRotation cfg := by
    intro f
    rw [rotFor, htruthy]
    simp
  have hdur0 : durString 0 = "0.0s" := by
    rw [durString]
    norm_num [pyFloatRepr]
    rfl
  have hentry : ∀ i f : ℕ, frameEntry cfg i f = frameEntry cfg i 0 := by
    intro i f
    have hrat : rotatedAt cfg f = rotatedAt cfg 0 := by
      rw [rotatedAt, rotatedAt, hrot f, hrot 0]
    rw [frameEntry, frameEntry, frameFaces, frameFaces, hrat]
  refine ⟨hrot, ?_, ?_⟩
  · rw [allRotatedPoints, htruthy]
    simp
  · refine ⟨_, generateSVG_animated cfg 0 hd, ?_⟩
    intro p hp
    obtain ⟨i, hi, rfl⟩ := List.mem_map.mp hp
    obtain ⟨hirange, hpred⟩ := List.mem_filter.mp hi
    have hconst : ∀ a ∈ List.range numFrames,
        frameEntry cfg i a = frameEntry cfg i 0 := by
      intro a _
      exact hentry i a
    rcases hE : frameEntry cfg i 0 with _ | e
    · exfalso
      have hfm : (List.range numFrames).filterMap (frameEntry cfg i) = [] :=
        List.filterMap_eq_nil_iff.mpr (fun a ha => by rw [hconst a ha, hE])
      have : (recordAt cfg numFrames i).points_values = [] := by
        simp [recordAt, hfm]
      simp [this] at hpred
    · have hfm : (List.range numFrames).filterMap (frameEntry cfg i)
          = List.replicate (List.range numFrames).length e :=
        filterMap_congr_some _ (fun a ha => by rw [hconst a ha, hE])
      have hrec : recordAt cfg numFrames i
          = ⟨List.replicate numFrames (e.pts2d.map quantPoint),
             List.replicate numFrames e.color,
             List.replicate numFrames (if e.visible then "visible" else "hidden")⟩ := by
        simp only [recordAt, hfm, List.length_range, List.map_replicate]
      refine ⟨hdur0, hdur0, hdur0, ?_, ?_, ?_, ?_⟩
      · rw [show (buildPoly cfg 0 (recordAt cfg numFrames i)).pointsAnim.values
            = ((recordAt cfg numFrames i).points_values.map
                (fun ps => ps.map (scalePoint cfg))).map
                  (fun ps => ps.map quantPoint) from rfl, hrec]
        simp
      · refine ⟨((e.pts2d.map quantPoint).map (scalePoint cfg)).map quantPoint, ?_⟩
        rw [show (buildPoly cfg 0 (recordAt cfg numFrames i)).pointsAnim.values
            = ((recordAt cfg numFrames i).points_values.map
                (fun ps => ps.map (scalePoint cfg))).map
                  (fun ps => ps.map quantPoint) from rfl, hrec]
        simp [List.map_replicate, numFrames]
      · exact ⟨e.color, by rw [show (buildPoly cfg 0 (recordAt cfg numFrames i)).fillAnim.values
            = (recordAt cfg numFrames i).color_values from rfl, hrec]⟩
      · exact ⟨if e.visible then "visible" else "hidden",
          by rw [show (buildPoly cfg 0 (recordAt cfg numFrames i)).visibilityAnim.values
            = (recordAt cfg numFrames i).visibility_values from rfl, hrec]⟩

/-- Witness for C10 at the triangle configuration with duration 0.0. -/
theorem claim10_witness :
    (∀ f : ℕ, rotFor cfgTri0 f = initialRotation cfgTri0)
    ∧ allRotatedPoints cfgTri0
        = cfgTri0.points3d.map (fun p => p.vecMul (initialRotation cfgTri0))
    ∧ ∃ polys, generateSVG cfgTri0 = .animated polys
        ∧ ∀ p ∈ polys,
            p.pointsAnim.dur = "0.0s" ∧ p.fillAnim.dur = "0.0s"
            ∧ p.visibilityAnim.dur = "0.0s"
            ∧ p.pointsAnim.values.length = numFrames
            ∧ (∃ v, p.pointsAnim.values = List.replicate numFrames v)
            ∧ (∃ c, p.fillAnim.values = List.replicate numFrames c)
            ∧ ∃ w, p.visibilityAnim.values = List.replicate numFrames w :=
  claim10_zero_duration cfgTri0 rfl

/-! ## Claim C8 -/

/-- Claim C8: in any frame, a face whose cross product has zero
magnitude is skipped for that frame — it contributes no shaded-face
entry and no keyframe values for that frame — and the run continues
without aborting: every other (non-degenerate) face of the frame is
processed normally. -/
theorem claim8_degenerate_skip (cfg : GenConfig) (frame i : ℕ) (face : List ℕ)
    (hi : cfg.faces[i]? = some face)
    (hdeg : (faceCross (rotatedAt cfg frame) face).len = 0) :
    (∀ e ∈ frameFaces cfg frame, e.face_index ≠ i)
    ∧ frameEntry cfg i frame = none
    ∧ (animsAfter cfg (frame + 1))[i]? = (animsAfter cfg frame)[i]?
    ∧ ∀ (j : ℕ) (fj : List ℕ), cfg.faces[j]? = some fj →
        (faceCross (rotatedAt cfg frame) fj).len ≠ 0 →
        ∃ e ∈ frameFaces cfg frame, e.face_index = j := by
  have hnone : ∀ e ∈ frameFaces cfg frame, e.face_index ≠ i := by
    intro e he hcon
    obtain ⟨_, _, face', hface', hpf⟩ :=
      processFacesAux_mem cfg.faces 0 e he
    rw [Nat.sub_zero] at hface'
    rw [hcon] at hface' hpf
    rw [hi] at hface'
    cases hface'
    rw [processFace_eq_none_iff.mpr hdeg] at hpf
    cases hpf
  refine ⟨hnone, frameEntry_eq_none_iff.mpr hnone, ?_, ?_⟩
  · show (storeFrame (animsAfter cfg frame) (frameFacesSorted cfg frame))[i]? = _
    exact storeFrame_getElem?_none _ _
      (fun e he => hnone e ((frameFacesSorted_perm cfg frame).mem_iff.mp he))
  · intro j fj hj hndeg
    rcases hpf : processFace cfg.baseColor (rotatedAt cfg frame) j fj with _ | e
    · exact absurd (processFace_eq_none_iff.mp hpf) hndeg
    · exact ⟨e, processFacesAux_complete cfg.faces 0 j fj e hj
        (by rw [Nat.zero_add]; exact hpf), processFace_idx hpf⟩

/-- The degenerate configuration's rotated points at frame 0 are its raw
points. -/
theorem cfgDegen_rotated :
    rotatedAt cfgDegen 0 = [⟨0, 0, 0⟩, ⟨1, 0, 0⟩, ⟨2, 0, 0⟩] := by
  have htr : cfgDegen.animTruthy = false := rfl
  have hinit : initialRotation cfgDegen = Mat3.one := by
    simp only [initialRotation, cfgDegen]
    exact get_rotation_matrix_zero
  have hrot : rotFor cfgDegen 0 = Mat3.one := by
    rw [rotFor, htr, hinit]
    simp
  rw [rotatedAt, hrot]
  show [Vec3.vecMul ⟨0, 0, 0⟩ Mat3.one, Vec3.vecMul ⟨1, 0, 0⟩ Mat3.one,
    Vec3.vecMul ⟨2, 0, 0⟩ Mat3.one] = _
  rw [Vec3.vecMul_one, Vec3.vecMul_one, Vec3.vecMul_one]

/-- Witness for C8: the collinear triangle has a zero cross product at
frame 0 and is skipped. -/
theorem claim8_witness :
    (∀ e ∈ frameFaces cfgDegen 0, e.face_index ≠ 0)
    ∧ frameEntry cfgDegen 0 0 = none
    ∧ (animsAfter cfgDegen (0 + 1))[0]? = (animsAfter cfgDegen 0)[0]?
    ∧ ∀ (j : ℕ) (fj : List ℕ), cfgDegen.faces[j]? = some fj →
        (faceCross (rotatedAt cfgDegen 0) fj).len ≠ 0 →
        ∃ e ∈ frameFaces cfgDegen 0, e.face_index = j := by
  apply claim8_degenerate_skip cfgDegen 0 0 [0, 1, 2] rfl
  rw [cfgDegen_rotated, faceCross_triple]
  have : ((⟨1, 0, 0⟩ : Vec3).sub ⟨0, 0, 0⟩).cross ((⟨2, 0, 0⟩ : Vec3).sub ⟨0, 0, 0⟩)
      = (⟨0, 0, 0⟩ : Vec3) := by
    simp only [Vec3.sub, Vec3.cross, Vec3.mk.injEq]
    norm_num
  rw [this]
  simp only [Vec3.len, Vec3.dot]
  norm_num

/-! ## Claim C3 -/

/-- Claim C3, evaluated at the failing input: when the tool output holds
no sentinel-delimited block (as for an unknown polyhedron name, where
the tool echoes no geometry), get_polyhedron_data calls .group(0) on the
None returned by re.search, raising an uncaught AttributeError — so the
run crashes before the no-data check of generate_icon, instead of
reporting no data and exiting cleanly as the spec requires. -/
theorem claim3_crash_on_missing_sentinels :
    loadPhase "ERROR: unknown polyhedron".toList = .crashed "AttributeError"
    ∧ loadPhase "ERROR: unknown polyhedron".toList ≠ .noData := by
  constructor
  · decide
  · decide

/-! ## Claim C4 -/

/-- Cauchy-Schwarz for the three-dimensional dot product. -/
theorem Vec3.cauchy (a b : Vec3) : (a.dot b) ^ 2 ≤ (a.dot a) * (b.dot b) := by
  simp only [Vec3.dot]
  nlinarith [sq_nonneg (a.x * b.y - a.y * b.x), sq_nonneg (a.x * b.z - a.z * b.x),
    sq_nonneg (a.y * b.z - a.z * b.y)]

/-- The normalized light direction is a unit vector. -/
theorem lightSource_unit : lightSource.dot lightSource = 1 := by
  have h14 : (Vec3.len ⟨1, 2, 3⟩) ^ 2 = 14 := by
    rw [Vec3.len, Real.sq_sqrt (by simp only [Vec3.dot]; norm_num)]
    simp only [Vec3.dot]
    norm_num
  have hpos : (0 : ℝ) < Vec3.len ⟨1, 2, 3⟩ := by
    apply Vec3.len_pos
    intro hcon
    exact absurd (congrArg Vec3.x hcon) (by norm_num)
  simp only [lightSource, lightRaw, Vec3.scale, Vec3.dot]
  have hne : Vec3.len ⟨1, 2, 3⟩ ≠ 0 := ne_of_gt hpos
  field_simp
  nlinarith [h14]

/-- Claim C4: for every unit normal n and the fixed unit light vector,
the shade factor equals 0.3 + 0.7 * max(0, n dot l); it is 1.0 when n
equals l, 0.3 when n is perpendicular to l, never below 0.3 for any
vector, and always at most 1.0 for unit n; each output channel is the
base channel multiplied by the shade and truncated toward zero (which
for the nonnegative product is the floor), emitted as an rgb(r,g,b)
string. -/
theorem claim4_shading (n : Vec3) (hn : n.len = 1) :
    shadeOf n = 0.3 + 0.7 * max 0 (n.dot lightSource)
    ∧ (n = lightSource → shadeOf n = 1)
    ∧ (n.dot lightSource = 0 → shadeOf n = 0.3)
    ∧ (∀ m : Vec3, 0.3 ≤ shadeOf m)
    ∧ shadeOf n ≤ 1
    ∧ (∀ c : ℕ, pyInt ((c : ℝ) * shadeOf n) = ⌊(c : ℝ) * shadeOf n⌋)
    ∧ ∀ r g b : ℕ, colorOf (r, g, b) n
        = rgbString (pyInt ((r : ℝ) * shadeOf n)) (pyInt ((g : ℝ) * shadeOf n))
            (pyInt ((b : ℝ) * shadeOf n)) := by
  have hform : shadeOf n = 0.3 + 0.7 * max 0 (n.dot lightSource) := by
    rw [shadeOf, ambient]
    norm_num
  have hlow : ∀ m : Vec3, 0.3 ≤ shadeOf m := by
    intro m
    rw [shadeOf, ambient]
    nlinarith [le_max_left 0 (m.dot lightSource)]
  have hdotn : n.dot n = 1 := by
    have := Vec3.len_sq n
    rw [hn] at this
    nlinarith [this]
  have hdot_le : n.dot lightSource ≤ 1 := by
    have hcs := Vec3.cauchy n lightSource
    rw [hdotn, lightSource_unit] at hcs
    nlinarith [hcs]
  refine ⟨hform, ?_, ?_, hlow, ?_, ?_, ?_⟩
  · intro hnl
    rw [hform, hnl, lightSource_unit]
    norm_num
  · intro hperp
    rw [hform, hperp]
    norm_num
  · rw [hform]
    have : max 0 (n.dot lightSource) ≤ 1 := max_le (by norm_num) hdot_le
    nlinarith [this]
  · intro c
    rw [pyInt, if_pos]
    have h1 : (0 : ℝ) ≤ (c : ℝ) := Nat.cast_nonneg c
    have h2 : (0 : ℝ) ≤ shadeOf n := le_trans (by norm_num) (hlow n)
    exact mul_nonneg h1 h2
  · intro r g b
    rfl

/-- Witness for C4 at the unit normal (0, 0, 1). -/
theorem claim4_witness :
    shadeOf ⟨0, 0, 1⟩ = 0.3 + 0.7 * max 0 (Vec3.dot ⟨0, 0, 1⟩ lightSource)
    ∧ ((⟨0, 0, 1⟩ : Vec3) = lightSource → shadeOf ⟨0, 0, 1⟩ = 1)
    ∧ (Vec3.dot ⟨0, 0, 1⟩ lightSource = 0 → shadeOf ⟨0, 0, 1⟩ = 0.3)
    ∧ (∀ m : Vec3, 0.3 ≤ shadeOf m)
    ∧ shadeOf ⟨0, 0, 1⟩ ≤ 1
    ∧ (∀ c : ℕ, pyInt ((c : ℝ) * shadeOf ⟨0, 0, 1⟩) = ⌊(c : ℝ) * shadeOf ⟨0, 0, 1⟩⌋)
    ∧ ∀ r g b : ℕ, colorOf (r, g, b) ⟨0, 0, 1⟩
        = rgbString (pyInt ((r : ℝ) * shadeOf ⟨0, 0, 1⟩))
            (pyInt ((g : ℝ) * shadeOf ⟨0, 0, 1⟩))
            (pyInt ((b : ℝ) * shadeOf ⟨0, 0, 1⟩)) := by
  apply claim4_shading ⟨0, 0, 1⟩
  simp only [Vec3.len, Vec3.dot]
  norm_num

/-! ## Claim C2: evaluating the cube at orientation (0, 0, 0) -/

theorem cube_rotated : rotatedAt cubeCfg 0 = cubePoints := by
  have htr : cubeCfg.animTruthy = false := rfl
  have hinit : initialRotation cubeCfg = Mat3.one := by
    simp only [initialRotation, cubeCfg]
    exact get_rotation_matrix_zero
  have hrot : rotFor cubeCfg 0 = Mat3.one := by
    rw [rotFor, htr, hinit]
    simp
  rw [rotatedAt, hrot]
  show [Vec3.vecMul ⟨1, 1, 1⟩ Mat3.one, Vec3.vecMul ⟨1, -1, 1⟩ Mat3.one,
    Vec3.vecMul ⟨-1, -1, 1⟩ Mat3.one, Vec3.vecMul ⟨-1, 1, 1⟩ Mat3.one,
    Vec3.vecMul ⟨1, 1, -1⟩ Mat3.one, Vec3.vecMul ⟨1, -1, -1⟩ Mat3.one,
    Vec3.vecMul ⟨-1, -1, -1⟩ Mat3.one, Vec3.vecMul ⟨-1, 1, -1⟩ Mat3.one] = _
  simp only [Vec3.vecMul_one, cubePoints]

theorem sqrt_sixteen : Real.sqrt 16 = 4 := by
  rw [show (16 : ℝ) = 4 ^ 2 by norm_num, Real.sqrt_sq (by norm_num : (0 : ℝ) ≤ 4)]

/-- Uniform evaluator for one cube face at the identity rotation. -/
theorem processFace_cube_eval (i : ℕ) (face : List ℕ) (c : Vec3) (d : ℝ) (v : Bool)
    (hcross : faceCross cubePoints face = c)
    (hlen : c.len = 4)
    (hvis : decide (0 ≤ (Vec3.scale (1 / 4) c).dot viewVector) = v)
    (hdepth : ((faceVertices cubePoints face).map Vec3.z).sum
        / ((faceVertices cubePoints face).length : ℝ) = d) :
    ∃ (pts : List (ℝ × ℝ)) (col : String),
      processFace (52, 152, 219) cubePoints i face = some ⟨i, pts, d, col, v⟩ := by
  refine ⟨(faceVertices cubePoints face).map (fun p => (p.x, p.y)),
    colorOf (52, 152, 219) (Vec3.scale (1 / 4) c), ?_⟩
  simp only [processFace, hcross, hlen]
  rw [if_neg (by norm_num : ¬((4 : ℝ) = 0))]
  rw [Option.some.injEq, ShadedFace.mk.injEq]
  exact ⟨rfl, rfl, hdepth, rfl, hvis⟩

theorem cube_face0 :
    ∃ (pts : List (ℝ × ℝ)) (col : String),
      processFace (52, 152, 219) cubePoints 0 [0, 1, 2, 3]
        = some ⟨0, pts, 1, col, false⟩ := by
  apply processFace_cube_eval 0 [0, 1, 2, 3] ⟨0, 0, -4⟩ 1 false
  · show (Vec3.sub ⟨1, -1, 1⟩ ⟨1, 1, 1⟩).cross (Vec3.sub ⟨-1, -1, 1⟩ ⟨1, 1, 1⟩) = _
    simp only [Vec3.sub, Vec3.cross, Vec3.mk.injEq]
    norm_num
  · simp only [Vec3.len, Vec3.dot]
    norm_num [sqrt_sixteen]
  · apply decide_eq_false
    simp only [Vec3.scale, Vec3.dot, viewVector]
    norm_num
  · show ([(1 : ℝ), 1, 1, 1].sum) / (([(1 : ℝ), 1, 1, 1].length : ℝ)) = 1
    norm_num

theorem cube_face1 :
    ∃ (pts : List (ℝ × ℝ)) (col : String),
      processFace (52, 152, 219) cubePoints 1 [4, 7, 6, 5]
        = some ⟨1, pts, -1, col, true⟩ := by
  apply processFace_cube_eval 1 [4, 7, 6, 5] ⟨0, 0, 4⟩ (-1) true
  · show (Vec3.sub ⟨-1, 1, -1⟩ ⟨1, 1, -1⟩).cross (Vec3.sub ⟨-1, -1, -1⟩ ⟨1, 1, -1⟩) = _
    simp only [Vec3.sub, Vec3.cross, Vec3.mk.injEq]
    norm_num
  · simp only [Vec3.len, Vec3.dot]
    norm_num [sqrt_sixteen]
  · apply decide_eq_true
    simp only [Vec3.scale, Vec3.dot, viewVector]
    norm_num
  · show ([(-1 : ℝ), -1, -1, -1].sum) / (([(-1 : ℝ), -1, -1, -1].length : ℝ)) = -1
    norm_num

theorem cube_face2 :
    ∃ (pts : List (ℝ × ℝ)) (col : String),
      processFace (52, 152, 219) cubePoints 2 [0, 4, 5, 1]
        = some ⟨2, pts, 0, col, true⟩ := by
  apply processFace_cube_eval 2 [0, 4, 5, 1] ⟨-4, 0, 0⟩ 0 true
  · show (Vec3.sub ⟨1, 1, -1⟩ ⟨1, 1, 1⟩).cross (Vec3.sub ⟨1, -1, -1⟩ ⟨1, 1, 1⟩) = _
    simp only [Vec3.sub, Vec3.cross, Vec3.mk.injEq]
    norm_num
  · simp only [Vec3.len, Vec3.dot]
    norm_num [sqrt_sixteen]
  · apply decide_eq_true
    simp only [Vec3.scale, Vec3.dot, viewVector]
    norm_num
  · show ([(1 : ℝ), -1, -1, 1].sum) / (([(1 : ℝ), -1, -1, 1].length : ℝ)) = 0
    norm_num

theorem cube_face3 :
    ∃ (pts : List (ℝ × ℝ)) (col : String),
      processFace (52, 152, 219) cubePoints 3 [3, 2, 6, 7]
        = some ⟨3, pts, 0, col, true⟩ := by
  apply processFace_cube_eval 3 [3, 2, 6, 7] ⟨4, 0, 0⟩ 0 true
  · show (Vec3.sub ⟨-1, -1, 1⟩ ⟨-1, 1, 1⟩).cross (Vec3.sub ⟨-1, -1, -1⟩ ⟨-1, 1, 1⟩) = _
    simp only [Vec3.sub, Vec3.cross, Vec3.mk.injEq]
    norm_num
  · simp only [Vec3.len, Vec3.dot]
    norm_num [sqrt_sixteen]
  · apply decide_eq_true
    simp only [Vec3.scale, Vec3.dot, viewVector]
    norm_num
  · show ([(1 : ℝ), 1, -1, -1].sum) / (([(1 : ℝ), 1, -1, -1].length : ℝ)) = 0
    norm_num

theorem cube_face4 :
    ∃ (pts : List (ℝ × ℝ)) (col : String),
      processFace (52, 152, 219) cubePoints 4 [0, 3, 7, 4]
        = some ⟨4, pts, 0, col, true⟩ := by
  apply processFace_cube_eval 4 [0, 3, 7, 4] ⟨0, -4, 0⟩ 0 true
  · show (Vec3.sub ⟨-1, 1, 1⟩ ⟨1, 1, 1⟩).cross (Vec3.sub ⟨-1, 1, -1⟩ ⟨1, 1, 1⟩) = _
    simp only [Vec3.sub, Vec3.cross, Vec3.mk.injEq]
    norm_num
  · simp only [Vec3.len, Vec3.dot]
    norm_num [sqrt_sixteen]
  · apply decide_eq_true
    simp only [Vec3.scale, Vec3.dot, viewVector]
    norm_num
  · show ([(1 : ℝ), 1, -1, -1].sum) / (([(1 : ℝ), 1, -1, -1].length : ℝ)) = 0
    norm_num

theorem cube_face5 :
    ∃ (pts : List (ℝ × ℝ)) (col : String),
      processFace (52, 152, 219) cubePoints 5 [1, 5, 6, 2]
        = some ⟨5, pts, 0, col, true⟩ := by
  apply processFace_cube_eval 5 [1, 5, 6, 2] ⟨0, 4, 0⟩ 0 true
  · show (Vec3.sub ⟨1, -1, -1⟩ ⟨1, -1, 1⟩).cross (Vec3.sub ⟨-1, -1, -1⟩ ⟨1, -1, 1⟩) = _
    simp only [Vec3.sub, Vec3.cross, Vec3.mk.injEq]
    norm_num
  · simp only [Vec3.len, Vec3.dot]
    norm_num [sqrt_sixteen]
  · apply decide_eq_true
    simp only [Vec3.scale, Vec3.dot, viewVector]
    norm_num
  · show ([(1 : ℝ), -1, -1, 1].sum) / (([(1 : ℝ), -1, -1, 1].length : ℝ)) = 0
    norm_num

/-- The six shaded faces of the cube at orientation (0, 0, 0): the top
face (inward normal -Z) is the one invisible face; the bottom face
(inward normal +Z) has depth -1; the four side faces have perpendicular
normals and depth 0. -/
theorem cube_frameFaces :
    ∃ e0 e1 e2 e3 e4 e5 : ShadedFace,
      frameFaces cubeCfg 0 = [e0, e1, e2, e3, e4, e5]
      ∧ e0.visible = false ∧ e1.visible = true ∧ e2.visible = true
      ∧ e3.visible = true ∧ e4.visible = true ∧ e5.visible = true
      ∧ e0.depth = 1 ∧ e1.depth = -1 ∧ e2.depth = 0 ∧ e3.depth = 0
      ∧ e4.depth = 0 ∧ e5.depth = 0 := by
  obtain ⟨p0, c0, h0⟩ := cube_face0
  obtain ⟨p1, c1, h1⟩ := cube_face1
  obtain ⟨p2, c2, h2⟩ := cube_face2
  obtain ⟨p3, c3, h3⟩ := cube_face3
  obtain ⟨p4, c4, h4⟩ := cube_face4
  obtain ⟨p5, c5, h5⟩ := cube_face5
  refine ⟨⟨0, p0, 1, c0, false⟩, ⟨1, p1, -1, c1, true⟩, ⟨2, p2, 0, c2, true⟩,
    ⟨3, p3, 0, c3, true⟩, ⟨4, p4, 0, c4, true⟩, ⟨5, p5, 0, c5, true⟩,
    ?_, rfl, rfl, rfl, rfl, rfl, rfl, rfl, rfl, rfl, rfl, rfl, rfl⟩
  rw [frameFaces, cube_rotated]
  show processFacesAux (52, 152, 219) cubePoints 0
    [[0, 1, 2, 3], [4, 7, 6, 5], [0, 4, 5, 1], [3, 2, 6, 7], [0, 3, 7, 4], [1, 5, 6, 2]] = _
  simp only [processFacesAux, h0, h1, h2, h3, h4, h5]

/-- Counterexample to C2 as stated: at orientation (0, 0, 0) the cube
has five faces marked visible (the dot product test uses greater or
equal, so the four side faces with dot exactly 0 count as visible), not
exactly one. -/
theorem claim2_counterexample :
    ((frameFaces cubeCfg 0).filter (fun e => e.visible)).length = 5
    ∧ ((frameFaces cubeCfg 0).filter (fun e => e.visible)).length ≠ 1 := by
  obtain ⟨e0, e1, e2, e3, e4, e5, hff, hv0, hv1, hv2, hv3, hv4, hv5,
    _, _, _, _, _, _⟩ := cube_frameFaces
  rw [hff]
  simp only [List.filter_cons, hv0, hv1, hv2, hv3, hv4, hv5, List.filter_nil]
  norm_num

/-- Claim C2, amended: at orientation (0, 0, 0) with view vector
(0, 0, 1) the cube's per-frame processing marks five faces visible — the
face whose normal points toward +Z together with the four side faces
whose normals are perpendicular to the view (the culling test keeps dot
products equal to zero) — and the +Z-normal face's depth (mean of
rotated z-coordinates) is the minimum among the depth values of all
faces. -/
theorem claim2_cube_visibility :
    ((frameFaces cubeCfg 0).filter (fun e => e.visible)).length = 5
    ∧ (frameFaces cubeCfg 0).map (fun e => (e.visible, e.depth))
        = [(false, 1), (true, -1), (true, 0), (true, 0), (true, 0), (true, 0)]
    ∧ faceCross (rotatedAt cubeCfg 0) [4, 7, 6, 5] = ⟨0, 0, 4⟩
    ∧ listMin ((frameFaces cubeCfg 0).map ShadedFace.depth) = -1 := by
  obtain ⟨e0, e1, e2, e3, e4, e5, hff, hv0, hv1, hv2, hv3, hv4, hv5,
    hd0, hd1, hd2, hd3, hd4, hd5⟩ := cube_frameFaces
  refine ⟨?_, ?_, ?_, ?_⟩
  · rw [hff]
    simp only [List.filter_cons, hv0, hv1, hv2, hv3, hv4, hv5, List.filter_nil]
    norm_num
  · rw [hff]
    simp only [List.map_cons, List.map_nil, hv0, hv1, hv2, hv3, hv4, hv5,
      hd0, hd1, hd2, hd3, hd4, hd5]
  · rw [cube_rotated]
    show (Vec3.sub ⟨-1, 1, -1⟩ ⟨1, 1, -1⟩).cross (Vec3.sub ⟨-1, -1, -1⟩ ⟨1, 1, -1⟩) = _
    simp only [Vec3.sub, Vec3.cross, Vec3.mk.injEq]
    norm_num
  · rw [hff]
    simp only [List.map_cons, List.map_nil, hd0, hd1, hd2, hd3, hd4, hd5]
    rw [show listMin [(1 : ℝ), -1, 0, 0, 0, 0]
        = [(-1 : ℝ), 0, 0, 0, 0].foldl min 1 from rfl]
    simp only [List.foldl_cons, List.foldl_nil]
    norm_num

/-! ## Claim C6: the canvas-fit infrastructure -/

theorem getElem?_some_mem {α : Type} {l : List α} {n : ℕ} {a : α}
    (h : l[n]? = some a) : a ∈ l := by
  have hn : n < l.length := by
    by_contra hc
    rw [List.getElem?_eq_none (by omega)] at h
    cases h
  rw [List.getElem?_eq_getElem hn, Option.some.injEq] at h
  exact h ▸ List.getElem_mem hn

theorem foldl_min_le_init (l : List ℝ) (a : ℝ) : l.foldl min a ≤ a := by
  induction l generalizing a with
  | nil => exact le_refl a
  | cons b t ih =>
    exact le_trans (ih (min a b)) (min_le_left a b)

theorem foldl_min_le_mem (l : List ℝ) (a : ℝ) {x : ℝ} (h : x ∈ l) :
    l.foldl min a ≤ x := by
  induction l generalizing a with
  | nil => simp at h
  | cons b t ih =>
    rcases List.mem_cons.mp h with rfl | hmem
    · exact le_trans (foldl_min_le_init t (min a x)) (min_le_right a x)
    · exact ih (min a b) hmem

theorem init_le_foldl_max (l : List ℝ) (a : ℝ) : a ≤ l.foldl max a := by
  induction l generalizing a with
  | nil => exact le_refl a
  | cons b t ih =>
    exact le_trans (le_max_left a b) (ih (max a b))

theorem mem_le_foldl_max (l : List ℝ) (a : ℝ) {x : ℝ} (h : x ∈ l) :
    x ≤ l.foldl max a := by
  induction l generalizing a with
  | nil => simp at h
  | cons b t ih =>
    rcases List.mem_cons.mp h with rfl | hmem
    · exact le_trans (le_max_right a x) (init_le_foldl_max t (max a x))
    · exact ih (max a b) hmem

theorem listMin_le {l : List ℝ} {x : ℝ} (h : x ∈ l) : listMin l ≤ x := by
  cases l with
  | nil => simp at h
  | cons a t =>
    rcases List.mem_cons.mp h with rfl | hmem
    · exact foldl_min_le_init t x
    · exact foldl_min_le_mem t a hmem

theorem le_listMax {l : List ℝ} {x : ℝ} (h : x ∈ l) : x ≤ listMax l := by
  cases l with
  | nil => simp at h
  | cons a t =>
    rcases List.mem_cons.mp h with rfl | hmem
    · exact init_le_foldl_max t x
    · exact mem_le_foldl_max t a hmem

theorem mem_xyList {p : Vec3} {ps : List Vec3} (h : p ∈ ps) :
    p.x ∈ xyList ps ∧ p.y ∈ xyList ps := by
  induction ps with
  | nil => simp at h
  | cons q t ih =>
    have hxy : xyList (q :: t) = q.x :: q.y :: xyList t := rfl
    rcases List.mem_cons.mp h with rfl | hmem
    · rw [hxy]
      exact ⟨List.mem_cons_self _ _,
        List.mem_cons_of_mem _ (List.mem_cons_self _ _)⟩
    · obtain ⟨hx, hy⟩ := ih hmem
      rw [hxy]
      exact ⟨List.mem_cons_of_mem _ (List.mem_cons_of_mem _ hx),
        List.mem_cons_of_mem _ (List.mem_cons_of_mem _ hy)⟩

/-- The one scale and offset map the joint coordinate range into the
central 90 percent band of the canvas. -/
theorem scaled_in_canvas (cfg : GenConfig) (hlt : minCoord cfg < maxCoord cfg)
    {c : ℝ} (h1 : minCoord cfg ≤ c) (h2 : c ≤ maxCoord cfg) :
    0.05 * canvasSize ≤ c * scaleFactor cfg + offsetXY cfg
    ∧ c * scaleFactor cfg + offsetXY cfg ≤ 0.95 * canvasSize := by
  have hD : (0 : ℝ) < maxCoord cfg - minCoord cfg := by linarith
  have hDne : maxCoord cfg - minCoord cfg ≠ 0 := ne_of_gt hD
  have hcs : (0 : ℝ) < canvasSize := by rw [canvasSize]; norm_num
  have hscale_pos : 0 < scaleFactor cfg := by
    rw [scaleFactor]
    positivity
  have hDs : (maxCoord cfg - minCoord cfg) * scaleFactor cfg = 0.9 * canvasSize := by
    rw [scaleFactor]
    field_simp
  have key : c * scaleFactor cfg + offsetXY cfg
      = (c - minCoord cfg) * scaleFactor cfg + 0.05 * canvasSize := by
    rw [offsetXY]
    linear_combination (-(1 : ℝ) / 2) * hDs
  constructor
  · rw [key]
    have : 0 ≤ (c - minCoord cfg) * scaleFactor cfg :=
      mul_nonneg (by linarith) (le_of_lt hscale_pos)
    linarith
  · rw [key]
    have hle : (c - minCoord cfg) * scaleFactor cfg
        ≤ (maxCoord cfg - minCoord cfg) * scaleFactor cfg :=
      mul_le_mul_of_nonneg_right (by linarith) (le_of_lt hscale_pos)
    rw [hDs] at hle
    linarith

/-- The projected 2D points of a processed face. -/
theorem processFace_pts2d {base rotated i face e}
    (h : processFace base rotated i face = some e) :
    e.pts2d = (faceVertices rotated face).map (fun p => (p.x, p.y)) := by
  simp only [processFace] at h
  split at h
  · exact absurd h (by simp)
  · cases h
    rfl

/-- Every projected coordinate pair of a frame member is the x-y part of
a rotated point (given in-range face indices). -/
theorem pts2d_mem_rotated {cfg : GenConfig} {frame : ℕ} {e : ShadedFace}
    (hidx : ∀ face ∈ cfg.faces, ∀ j ∈ face, j < cfg.points3d.length)
    (he : e ∈ frameFaces cfg frame) {q : ℝ × ℝ} (hq : q ∈ e.pts2d) :
    ∃ p ∈ rotatedAt cfg frame, q = (p.x, p.y) := by
  obtain ⟨_, _, face, hface, hpf⟩ := processFacesAux_mem cfg.faces 0 e he
  rw [Nat.sub_zero] at hface
  have hfmem : face ∈ cfg.faces := getElem?_some_mem hface
  rw [processFace_pts2d hpf] at hq
  obtain ⟨p, hp, rfl⟩ := List.mem_map.mp hq
  obtain ⟨j, hj, rfl⟩ := List.mem_map.mp hp
  have hjlt : j < (rotatedAt cfg frame).length := by
    rw [rotatedAt, List.length_map]
    exact hidx face hfmem j hj
  rw [List.getD_eq_getElem _ _ hjlt]
  exact ⟨_, List.getElem_mem hjlt, rfl⟩

/-- When the duration is falsy, every frame rotates by the initial
orientation only. -/
theorem rotatedAt_eq_static (cfg : GenConfig) (htr : cfg.animTruthy = false)
    (f : ℕ) : rotatedAt cfg f
      = cfg.points3d.map (fun p => p.vecMul (initialRotation cfg)) := by
  rw [rotatedAt, rotFor, htr]
  simp

/-- Every frame's rotated points are among the points the bounding box is
computed from, for any non-None duration. -/
theorem rotatedAt_subset_all {cfg : GenConfig} {f : ℕ} (hf : f < numFrames)
    {p : Vec3} (hp : p ∈ rotatedAt cfg f) : p ∈ allRotatedPoints cfg := by
  rcases htr : cfg.animTruthy with _ | _
  · rw [allRotatedPoints, htr]
    simp only [Bool.false_eq_true, if_false]
    rw [rotatedAt_eq_static cfg htr f] at hp
    exact hp
  · rw [allRotatedPoints, htr, if_pos rfl]
    rw [List.mem_flatten]
    exact ⟨rotatedAt cfg f, List.mem_map.mpr ⟨f, List.mem_range.mpr hf, rfl⟩, hp⟩

/-- The static bounding points are frame 0's rotated points. -/
theorem static_all_rotated {cfg : GenConfig}
    (hd : cfg.animation_duration = none) :
    allRotatedPoints cfg = rotatedAt cfg 0 := by
  have htr : cfg.animTruthy = false := by
    simp [GenConfig.animTruthy, hd]
  rw [allRotatedPoints, htr, rotatedAt_eq_static cfg htr 0]
  simp

/-- The scaled positions of the joint minimum and maximum coordinates:
the bounding box lands exactly on the central 90 percent band. -/
theorem scaled_box_endpoints (cfg : GenConfig)
    (hlt : minCoord cfg < maxCoord cfg) :
    minCoord cfg * scaleFactor cfg + offsetXY cfg = 0.05 * canvasSize
    ∧ maxCoord cfg * scaleFactor cfg + offsetXY cfg = 0.95 * canvasSize := by
  have hD : (0 : ℝ) < maxCoord cfg - minCoord cfg := by linarith
  have hDne : maxCoord cfg - minCoord cfg ≠ 0 := ne_of_gt hD
  have hDs : (maxCoord cfg - minCoord cfg) * scaleFactor cfg = 0.9 * canvasSize := by
    rw [scaleFactor]
    field_simp
  constructor
  · rw [offsetXY]
    linear_combination (-(1 : ℝ) / 2) * hDs
  · rw [offsetXY]
    linear_combination ((1 : ℝ) / 2) * hDs

/-- Any coordinate drawn from the collected set lands inside the
canvas. -/
theorem coord_in_canvas (cfg : GenConfig) (hlt : minCoord cfg < maxCoord cfg)
    {c : ℝ} (hc : c ∈ xyList (allRotatedPoints cfg)) :
    0 ≤ c * scaleFactor cfg + offsetXY cfg
    ∧ c * scaleFactor cfg + offsetXY cfg ≤ canvasSize := by
  have h1 : minCoord cfg ≤ c := listMin_le hc
  have h2 : c ≤ maxCoord cfg := le_listMax hc
  obtain ⟨hl, hr⟩ := scaled_in_canvas cfg hlt h1 h2
  have hcs : (0 : ℝ) < canvasSize := by rw [canvasSize]; norm_num
  constructor <;> linarith

/-- A scaled point whose source lies among the collected rotated points
lands inside the canvas in both coordinates. -/
theorem point_in_canvas (cfg : GenConfig) (hlt : minCoord cfg < maxCoord cfg)
    {p : Vec3} (hp : p ∈ allRotatedPoints cfg) :
    (0 ≤ (scalePoint cfg (p.x, p.y)).1 ∧ (scalePoint cfg (p.x, p.y)).1 ≤ canvasSize)
    ∧ 0 ≤ (scalePoint cfg (p.x, p.y)).2 ∧ (scalePoint cfg (p.x, p.y)).2 ≤ canvasSize := by
  obtain ⟨hx, hy⟩ := mem_xyList hp
  exact ⟨coord_in_canvas cfg hlt hx, coord_in_canvas cfg hlt hy⟩

theorem mem_getD_zero {α : Type} {l : List (List α)} {q : α}
    (h : q ∈ l.getD 0 []) : ∃ m ∈ l, q ∈ m := by
  cases l with
  | nil => simp at h
  | cons a t => exact ⟨a, List.mem_cons_self _ _, h⟩


/-- The 4-decimal quantization moves a value by at most 1/20000. -/
theorem round4_close (x : ℝ) : x - 1 / 20000 ≤ round4 x ∧ round4 x ≤ x + 1 / 20000 := by
  have h := abs_sub_round ((10000 : ℝ) * x)
  rw [abs_le] at h
  constructor
  · rw [round4]
    nlinarith [h.1, h.2]
  · rw [round4]
    nlinarith [h.1, h.2]

/-- The scale and offset act affinely relative to the joint minimum. -/
theorem scale_affine (cfg : GenConfig) (hlt : minCoord cfg < maxCoord cfg)
    (x : ℝ) : x * scaleFactor cfg + offsetXY cfg
      = (x - minCoord cfg) * scaleFactor cfg + 0.05 * canvasSize := by
  have hDne : maxCoord cfg - minCoord cfg ≠ 0 := ne_of_gt (by linarith)
  have hDs : (maxCoord cfg - minCoord cfg) * scaleFactor cfg = 0.9 * canvasSize := by
    rw [scaleFactor]
    field_simp
  rw [offsetXY]
  linear_combination (-(1 : ℝ) / 2) * hDs

/-- With a coordinate extent of at least 1/1000, a 4-decimal-quantized
coordinate still scales into a band with room to spare on both sides. -/
theorem quant_scaled_bounds (cfg : GenConfig) (hlt : minCoord cfg < maxCoord cfg)
    (hD : 1 / 1000 ≤ maxCoord cfg - minCoord cfg) {c : ℝ}
    (h1 : minCoord cfg ≤ c) (h2 : c ≤ maxCoord cfg) :
    2 ≤ round4 c * scaleFactor cfg + offsetXY cfg
    ∧ round4 c * scaleFactor cfg + offsetXY cfg ≤ 510 := by
  have hDne : maxCoord cfg - minCoord cfg ≠ 0 := ne_of_gt (by linarith)
  have hcs : canvasSize = (512 : ℝ) := rfl
  have hs_pos : 0 < scaleFactor cfg := by
    rw [scaleFactor, hcs]
    have : (0 : ℝ) < maxCoord cfg - minCoord cfg := by linarith
    positivity
  have hDs : (maxCoord cfg - minCoord cfg) * scaleFactor cfg = 0.9 * canvasSize := by
    rw [scaleFactor]
    field_simp
  have hs_le : scaleFactor cfg ≤ 460800 := by
    have hmul : scaleFactor cfg * (1 / 1000)
        ≤ scaleFactor cfg * (maxCoord cfg - minCoord cfg) :=
      mul_le_mul_of_nonneg_left hD (le_of_lt hs_pos)
    rw [mul_comm (scaleFactor cfg) (maxCoord cfg - minCoord cfg), hDs, hcs] at hmul
    linarith
  obtain ⟨hr1, hr2⟩ := round4_close c
  rw [scale_affine cfg hlt (round4 c), hcs]
  have hlb : (-(1 / 20000) : ℝ) * scaleFactor cfg
      ≤ (round4 c - minCoord cfg) * scaleFactor cfg :=
    mul_le_mul_of_nonneg_right (by linarith) (le_of_lt hs_pos)
  have hub : (round4 c - minCoord cfg) * scaleFactor cfg
      ≤ (maxCoord cfg - minCoord cfg + 1 / 20000) * scaleFactor cfg :=
    mul_le_mul_of_nonneg_right (by linarith) (le_of_lt hs_pos)
  have hexp : (maxCoord cfg - minCoord cfg + 1 / 20000) * scaleFactor cfg
      = (maxCoord cfg - minCoord cfg) * scaleFactor cfg
        + scaleFactor cfg * (1 / 20000) := by ring
  rw [hexp, hDs, hcs] at hub
  constructor
  · nlinarith [hlb, hs_le, hs_pos]
  · nlinarith [hub, hs_le, hs_pos]

/-- Both the scaled quantized coordinate and its re-quantized form stay
inside the canvas, given an extent of at least 1/1000. -/
theorem quant_written_in_canvas (cfg : GenConfig)
    (hlt : minCoord cfg < maxCoord cfg)
    (hD : 1 / 1000 ≤ maxCoord cfg - minCoord cfg) {c : ℝ}
    (h1 : minCoord cfg ≤ c) (h2 : c ≤ maxCoord cfg) :
    (0 ≤ round4 c * scaleFactor cfg + offsetXY cfg
      ∧ round4 c * scaleFactor cfg + offsetXY cfg ≤ canvasSize)
    ∧ 0 ≤ round4 (round4 c * scaleFactor cfg + offsetXY cfg)
      ∧ round4 (round4 c * scaleFactor cfg + offsetXY cfg) ≤ canvasSize := by
  obtain ⟨ha, hb⟩ := quant_scaled_bounds cfg hlt hD h1 h2
  obtain ⟨hc1, hc2⟩ := round4_close (round4 c * scaleFactor cfg + offsetXY cfg)
  have hcs : canvasSize = (512 : ℝ) := rfl
  rw [hcs]
  refine ⟨⟨by linarith, by linarith⟩, by linarith, by linarith⟩

/-- Claim C6, amended: the emitter computes one uniform scale and one
offset from the set of all x and y coordinates used across all used
frames, applies that same scale and offset to every coordinate it
writes, and the bounding box of that coordinate set lands centered on 90
percent of the 512 by 512 canvas; in static mode no written coordinate
falls outside the canvas for any nonzero extent, and in animated mode —
where the written keyframes are the 4-decimal-quantized coordinates, so
quantization can step past the raw bounding box — no written coordinate
falls outside the canvas in any frame provided the joint coordinate
extent is at least 1/1000. -/
theorem claim6_canvas_fit (cfg : GenConfig)
    (hidx : ∀ face ∈ cfg.faces, ∀ j ∈ face, j < cfg.points3d.length)
    (hext : minCoord cfg < maxCoord cfg) :
    (minCoord cfg * scaleFactor cfg + offsetXY cfg = 0.05 * canvasSize
      ∧ maxCoord cfg * scaleFactor cfg + offsetXY cfg = 0.95 * canvasSize)
    ∧ (cfg.animation_duration = none →
        ∀ q ∈ writtenXY (generateSVG cfg),
          (0 ≤ q.1 ∧ q.1 ≤ canvasSize) ∧ 0 ≤ q.2 ∧ q.2 ≤ canvasSize)
    ∧ (1 / 1000 ≤ maxCoord cfg - minCoord cfg →
        ∀ q ∈ writtenXY (generateSVG cfg),
          (0 ≤ q.1 ∧ q.1 ≤ canvasSize) ∧ 0 ≤ q.2 ∧ q.2 ≤ canvasSize) := by
  have staticCase : cfg.animation_duration = none →
      ∀ q ∈ writtenXY (generateSVG cfg),
        (0 ≤ q.1 ∧ q.1 ≤ canvasSize) ∧ 0 ≤ q.2 ∧ q.2 ≤ canvasSize := by
    intro hd q hq
    rw [show generateSVG cfg = .static ((facesToDraw cfg).map
        (fun e => (e.pts2d.map (scalePoint cfg), e.color))) by
      rw [generateSVG, hd]] at hq
    simp only [writtenXY, List.mem_flatten, List.mem_map] at hq
    obtain ⟨pl, ⟨pair, ⟨e, he, rfl⟩, rfl⟩, hqin⟩ := hq
    obtain ⟨q0, hq0, rfl⟩ := List.mem_map.mp hqin
    have heff : e ∈ frameFaces cfg 0 :=
      (frameFacesSorted_perm cfg 0).mem_iff.mp (List.mem_of_mem_filter he)
    obtain ⟨p, hp, rfl⟩ := pts2d_mem_rotated hidx heff hq0
    have hpall : p ∈ allRotatedPoints cfg := by
      rw [static_all_rotated hd]
      exact hp
    exact point_in_canvas cfg hext hpall
  refine ⟨scaled_box_endpoints cfg hext, staticCase, ?_⟩
  intro hD q hq
  rcases hd : cfg.animation_duration with _ | d
  · exact staticCase hd q hq
  · rw [generateSVG_animated cfg d hd] at hq
    simp only [writtenXY, List.mem_flatten, List.mem_map] at hq
    obtain ⟨pl, ⟨poly, hpoly, rfl⟩, hqin⟩ := hq
    obtain ⟨i, hi, rfl⟩ := hpoly
    have hqin' : ∃ m ∈ (recordAt cfg numFrames i).points_values.map
        (fun ps => ps.map (scalePoint cfg)),
        q ∈ m ∨ ∃ q1 ∈ m, q = quantPoint q1 := by
      rcases List.mem_append.mp hqin with hinit | hflat
      · obtain ⟨m, hm, hqm⟩ := mem_getD_zero hinit
        exact ⟨m, hm, Or.inl hqm⟩
      · rw [List.mem_flatten] at hflat
        obtain ⟨m', hm', hq'⟩ := hflat
        obtain ⟨m, hm, rfl⟩ := List.mem_map.mp hm'
        obtain ⟨q1, hq1, rfl⟩ := List.mem_map.mp hq'
        exact ⟨m, hm, Or.inr ⟨q1, hq1, rfl⟩⟩
    obtain ⟨m, hm, hcases⟩ := hqin'
    obtain ⟨pv, hpv, rfl⟩ := List.mem_map.mp hm
    simp only [recordAt, List.mem_map, List.mem_filterMap] at hpv
    obtain ⟨e, ⟨f, hf, hE⟩, rfl⟩ := hpv
    have heff : e ∈ frameFaces cfg f := (frameEntry_eq_some_iff.mp hE).1
    have hbounds : ∀ p : Vec3, p ∈ rotatedAt cfg f →
        (minCoord cfg ≤ p.x ∧ p.x ≤ maxCoord cfg)
        ∧ minCoord cfg ≤ p.y ∧ p.y ≤ maxCoord cfg := by
      intro p hp
      have hpall : p ∈ allRotatedPoints cfg :=
        rotatedAt_subset_all (List.mem_range.mp hf) hp
      obtain ⟨hx, hy⟩ := mem_xyList hpall
      exact ⟨⟨listMin_le hx, le_listMax hx⟩, listMin_le hy, le_listMax hy⟩
    rcases hcases with hqm | ⟨q1, hq1, rfl⟩
    · obtain ⟨q2, hq2, rfl⟩ := List.mem_map.mp hqm
      obtain ⟨q3, hq3, rfl⟩ := List.mem_map.mp hq2
      obtain ⟨p, hp, rfl⟩ := pts2d_mem_rotated hidx heff hq3
      obtain ⟨⟨hx1, hx2⟩, hy1, hy2⟩ := hbounds p hp
      exact ⟨(quant_written_in_canvas cfg hext hD hx1 hx2).1,
        (quant_written_in_canvas cfg hext hD hy1 hy2).1⟩
    · obtain ⟨q2, hq2, rfl⟩ := List.mem_map.mp hq1
      obtain ⟨q3, hq3, rfl⟩ := List.mem_map.mp hq2
      obtain ⟨p, hp, rfl⟩ := pts2d_mem_rotated hidx heff hq3
      obtain ⟨⟨hx1, hx2⟩, hy1, hy2⟩ := hbounds p hp
      exact ⟨(quant_written_in_canvas cfg hext hD hx1 hx2).2,
        (quant_written_in_canvas cfg hext hD hy1 hy2).2⟩

theorem cfgRound_truthy : cfgRound.animTruthy = false := by
  simp [GenConfig.animTruthy, cfgRound]

/-- Every frame of the tiny-extent run rotates by the identity. -/
theorem cfgRound_rotated (f : ℕ) :
    rotatedAt cfgRound f = [⟨0, 0, 0⟩, ⟨0.00006, 0, 0⟩, ⟨0, 0.00006, 0⟩] := by
  have hinit : initialRotation cfgRound = Mat3.one := by
    simp only [initialRotation, cfgRound]
    exact get_rotation_matrix_zero
  have hrot : rotFor cfgRound f = Mat3.one := by
    rw [rotFor, cfgRound_truthy, hinit]
    simp
  rw [rotatedAt, hrot]
  show [Vec3.vecMul ⟨0, 0, 0⟩ Mat3.one, Vec3.vecMul ⟨0.00006, 0, 0⟩ Mat3.one,
    Vec3.vecMul ⟨0, 0.00006, 0⟩ Mat3.one] = _
  rw [Vec3.vecMul_one, Vec3.vecMul_one, Vec3.vecMul_one]

/-- Processing the tiny triangle: non-degenerate, with raw projected
coordinates 0 and 0.00006. -/
theorem processFace_round_eval :
    ∃ (d : ℝ) (col : String) (vis : Bool),
      processFace (0, 0, 0) [⟨0, 0, 0⟩, ⟨0.00006, 0, 0⟩, ⟨0, 0.00006, 0⟩] 0 [0, 1, 2]
        = some ⟨0, [((0 : ℝ), (0 : ℝ)), (0.00006, 0), (0, 0.00006)], d, col, vis⟩ := by
  have hcross : faceCross [⟨0, 0, 0⟩, ⟨0.00006, 0, 0⟩, ⟨0, 0.00006, 0⟩] [0, 1, 2]
      = ⟨0, 0, 0.0000000036⟩ := by
    rw [faceCross_triple]
    simp only [Vec3.sub, Vec3.cross, Vec3.mk.injEq]
    norm_num
  have hlen : (⟨0, 0, 0.0000000036⟩ : Vec3).len = 0.0000000036 := by
    rw [show (⟨0, 0, 0.0000000036⟩ : Vec3).len
        = Real.sqrt (0 * 0 + 0 * 0 + 0.0000000036 * 0.0000000036) from rfl]
    rw [show (0 * 0 + 0 * 0 + 0.0000000036 * 0.0000000036 : ℝ)
        = 0.0000000036 ^ 2 by norm_num]
    exact Real.sqrt_sq (by norm_num)
  refine ⟨((faceVertices [⟨0, 0, 0⟩, ⟨0.00006, 0, 0⟩, ⟨0, 0.00006, 0⟩] [0, 1, 2]).map
        Vec3.z).sum
      / ((faceVertices [⟨0, 0, 0⟩, ⟨0.00006, 0, 0⟩, ⟨0, 0.00006, 0⟩] [0, 1, 2]).length : ℝ),
    colorOf (0, 0, 0) (Vec3.scale (1 / 0.0000000036) ⟨0, 0, 0.0000000036⟩),
    decide (0 ≤ (Vec3.scale (1 / 0.0000000036) (⟨0, 0, 0.0000000036⟩ : Vec3)).dot viewVector),
    ?_⟩
  simp only [processFace, hcross, hlen]
  rw [if_neg (by norm_num : ¬((0.0000000036 : ℝ) = 0))]
  rfl

/-- Each frame of the tiny-extent run yields the one shaded face. -/
theorem cfgRound_frameFaces :
    ∃ (d : ℝ) (col : String) (vis : Bool), ∀ f : ℕ, frameFaces cfgRound f
      = [⟨0, [((0 : ℝ), (0 : ℝ)), (0.00006, 0), (0, 0.00006)], d, col, vis⟩] := by
  obtain ⟨d, col, vis, hpf⟩ := processFace_round_eval
  refine ⟨d, col, vis, fun f => ?_⟩
  rw [frameFaces, cfgRound_rotated]
  show processFacesAux (0, 0, 0) _ 0 [[0, 1, 2]] = _
  simp only [processFacesAux, hpf]

/-- Counterexample to C6 as stated: the tiny triangle (coordinate extent
0.00006, nonzero) run through the animated pipeline at the falsy
duration 0.0 — where every frame is the identity rotation, so the run
is exactly computable — writes the coordinate 793.6, far outside the
512-pixel canvas: the 4-decimal keyframe quantization of line 185
rounds 0.00006 up to 0.0001, past the joint maximum that the scale
7680000 and offset 25.6 were computed from. -/
theorem claim6_counterexample :
    minCoord cfgRound < maxCoord cfgRound
    ∧ ((793.6 : ℝ), (25.6 : ℝ)) ∈ writtenXY (generateSVG cfgRound)
    ∧ ¬((793.6 : ℝ) ≤ canvasSize) := by
  have hall : allRotatedPoints cfgRound
      = [⟨0, 0, 0⟩, ⟨0.00006, 0, 0⟩, ⟨0, 0.00006, 0⟩] := by
    have h1 : allRotatedPoints cfgRound
        = cfgRound.points3d.map (fun p => p.vecMul (initialRotation cfgRound)) := by
      rw [allRotatedPoints, cfgRound_truthy]
      simp
    rw [h1, ← rotatedAt_eq_static cfgRound cfgRound_truthy 0, cfgRound_rotated]
  have hmin : minCoord cfgRound = 0 := by
    rw [minCoord, hall]
    rw [show xyList [⟨0, 0, 0⟩, ⟨0.00006, 0, 0⟩, ⟨0, 0.00006, 0⟩]
        = [0, 0, 0.00006, 0, 0, 0.00006] from rfl]
    rw [show listMin [(0 : ℝ), 0, 0.00006, 0, 0, 0.00006]
        = [(0 : ℝ), 0.00006, 0, 0, 0.00006].foldl min 0 from rfl]
    simp only [List.foldl_cons, List.foldl_nil]
    norm_num [min_def]
  have hmax : maxCoord cfgRound = 0.00006 := by
    rw [maxCoord, hall]
    rw [show xyList [⟨0, 0, 0⟩, ⟨0.00006, 0, 0⟩, ⟨0, 0.00006, 0⟩]
        = [0, 0, 0.00006, 0, 0, 0.00006] from rfl]
    rw [show listMax [(0 : ℝ), 0, 0.00006, 0, 0, 0.00006]
        = [(0 : ℝ), 0.00006, 0, 0, 0.00006].foldl max 0 from rfl]
    simp only [List.foldl_cons, List.foldl_nil]
    norm_num [max_def]
  have hscale : scaleFactor cfgRound = 7680000 := by
    rw [scaleFactor, hmin, hmax]
    rw [show canvasSize = (512 : ℝ) from rfl]
    norm_num
  have hoffset : offsetXY cfgRound = 25.6 := by
    rw [offsetXY, hmin, hmax, hscale]
    rw [show canvasSize = (512 : ℝ) from rfl]
    norm_num
  obtain ⟨d, col, vis, hframe⟩ := cfgRound_frameFaces
  have hE : ∀ f : ℕ, frameEntry cfgRound 0 f
      = some ⟨0, [((0 : ℝ), (0 : ℝ)), (0.00006, 0), (0, 0.00006)], d, col, vis⟩ := by
    intro f
    rw [frameEntry, hframe f]
    simp [List.find?]
  have hfm : (List.range numFrames).filterMap (frameEntry cfgRound 0)
      = List.replicate (List.range numFrames).length
          (⟨0, [((0 : ℝ), (0 : ℝ)), (0.00006, 0), (0, 0.00006)], d, col, vis⟩ : ShadedFace) :=
    filterMap_congr_some _ (fun a _ => hE a)
  have hquant : ([((0 : ℝ), (0 : ℝ)), (0.00006, 0), (0, 0.00006)]).map quantPoint
      = [((0 : ℝ), (0 : ℝ)), (0.0001, 0), (0, 0.0001)] := by
    have hq0 : round4 0 = 0 := by
      rw [round4]
      norm_num
    have hq6 : round4 0.00006 = 0.0001 := by
      rw [round4, show (10000 : ℝ) * 0.00006 = 0.6 by norm_num,
        show round (0.6 : ℝ) = 1 by norm_num [round_eq]]
      norm_num
    simp [quantPoint, hq0, hq6]
  have hrec : (recordAt cfgRound numFrames 0).points_values
      = List.replicate numFrames [((0 : ℝ), (0 : ℝ)), (0.0001, 0), (0, 0.0001)] := by
    simp only [recordAt, hfm, List.length_range, List.map_replicate]
    rw [hquant]
  have hne : (recordAt cfgRound numFrames 0).points_values ≠ [] := by
    rw [hrec]
    simp [numFrames]
  have hisEmpty : (recordAt cfgRound numFrames 0).points_values.isEmpty = false := by
    rcases hpv : (recordAt cfgRound numFrames 0).points_values with _ | ⟨a, t⟩
    · exact absurd hpv hne
    · rfl
  refine ⟨by rw [hmin, hmax]; norm_num, ?_, ?_⟩
  · rw [generateSVG_animated cfgRound 0 rfl]
    rw [show cfgRound.faces.length = 1 from rfl,
      show List.range 1 = [0] by rw [List.range_succ, List.range_zero, List.nil_append]]
    simp only [List.filter_cons, hisEmpty, Bool.not_false, if_true,
      List.filter_nil, List.map_cons, List.map_nil, writtenXY, List.flatten]
    apply List.mem_append.mpr
    left
    rw [show (buildPoly cfgRound 0 (recordAt cfgRound numFrames 0)).initialPoints
        = ((recordAt cfgRound numFrames 0).points_values.map
            (fun ps => ps.map (scalePoint cfgRound))).getD 0 [] from rfl]
    rw [hrec, List.map_replicate]
    rw [show (List.replicate numFrames
          (([((0 : ℝ), (0 : ℝ)), (0.0001, 0), (0, 0.0001)]).map (scalePoint cfgRound))).getD 0 []
        = ([((0 : ℝ), (0 : ℝ)), (0.0001, 0), (0, 0.0001)]).map (scalePoint cfgRound) from rfl]
    have hsp : scalePoint cfgRound ((0.0001 : ℝ), (0 : ℝ)) = (793.6, 25.6) := by
      simp only [scalePoint, hscale, hoffset]
      norm_num
    simp only [List.map_cons, List.map_nil, hsp]
    exact List.mem_cons_of_mem _ (List.mem_cons_self _ _)
  · rw [show canvasSize = (512 : ℝ) from rfl]
    norm_num

/-- Witness for the amended C6 at the static cube configuration, whose
coordinate extent of 2 clears the 1/1000 threshold. -/
theorem claim6_witness :
    (minCoord cubeCfg * scaleFactor cubeCfg + offsetXY cubeCfg = 0.05 * canvasSize
      ∧ maxCoord cubeCfg * scaleFactor cubeCfg + offsetXY cubeCfg = 0.95 * canvasSize)
    ∧ (cubeCfg.animation_duration = none →
        ∀ q ∈ writtenXY (generateSVG cubeCfg),
          (0 ≤ q.1 ∧ q.1 ≤ canvasSize) ∧ 0 ≤ q.2 ∧ q.2 ≤ canvasSize)
    ∧ (1 / 1000 ≤ maxCoord cubeCfg - minCoord cubeCfg →
        ∀ q ∈ writtenXY (generateSVG cubeCfg),
          (0 ≤ q.1 ∧ q.1 ≤ canvasSize) ∧ 0 ≤ q.2 ∧ q.2 ≤ canvasSize) := by
  apply claim6_canvas_fit cubeCfg
  · decide
  · have hall : allRotatedPoints cubeCfg = cubePoints := by
      rw [static_all_rotated rfl]
      exact cube_rotated
    have hxy : xyList cubePoints
        = [1, 1, 1, -1, -1, -1, -1, 1, 1, 1, 1, -1, -1, -1, -1, 1] := rfl
    have hm : (-1 : ℝ) ∈ xyList cubePoints := by
      rw [hxy]
      norm_num
    have hM : (1 : ℝ) ∈ xyList cubePoints := by
      rw [hxy]
      norm_num
    have h1 : minCoord cubeCfg ≤ -1 := by
      rw [minCoord, hall]
      exact listMin_le hm
    have h2 : (1 : ℝ) ≤ maxCoord cubeCfg := by
      rw [maxCoord, hall]
      exact le_listMax hM
    linarith

end

end Iconhedra
